import Mathlib

/-!
Verification development for the `subprocess` Go library.

The library composes external processes into shell-like pipelines
(`|`, `&&`, `||`, `&`).  This file gives a shallow embedding of the
composition-and-execution engine (`pipeline.go`, `pipeline_struct.go`,
`executable.go`, `visitor.go`, `process.go`) and proves properties of it.

Modelling conventions:
* Machine-level process behaviour (what the OS does when a process is
  spawned) is an oracle attached to each leaf: a `ProcBehavior` records
  whether `Process.Exec` fails to start, the bytes the combined
  stdout+stderr stream yields, and the error `ProcessRunner.Wait` returns.
* Go `error` values become `Option GoError`; `nil` is `none`.
  `*exec.ExitError` is the constructor `GoError.exitError`.
* Go nil-pointer dereferences (and goroutine panics, which crash the whole
  program) are modelled as a `PanicKind.nilDeref` outcome of the
  interpreter; `panic("unknown operation type")` in `Pipeline.Run` is
  `PanicKind.unknownOperation`.
* The mutually recursive Go call graph is made total with a fuel
  parameter; exhausting fuel yields the distinguished outcome
  `PanicKind.outOfFuel`.  All theorems are conditioned on a `.ok` (or a
  specific panic) outcome, so they hold for every fuel value.
* Each spawned OS process is recorded in a spawn trace (the list of leaf
  ids started), so claims of the form "no process is started" are
  expressible.
* `WaitForBackground` races a job's completion channel against the run
  context.  The model resolves the race deterministically: with a live
  run context the completion branch is taken (the loop blocks on
  `job.done`); with an already-done run context the cancellation branch
  is taken.  In the Go code the cancellation branch never appends to
  `BackgroundErrors`, so the two schedules differ only in
  `BackgroundErrors` entries of failing jobs under a done context.
-/

namespace Subprocess

/-- `OperationType` from `pipeline.go`: the five pipeline operations. -/
inductive OperationType where
  | opSingle
  | opPipe
  | opAnd
  | opOr
  | opBackground
deriving DecidableEq, Repr

/-- Go `error` values that arise in the engine.  `exitError` models
`*exec.ExitError` (carrying the `ExitCode()` the OS reported);
`startFailure` models a spawn/stream-setup failure from `Process.Exec`;
`wrappedStart` models `fmt.Errorf("failed to start process: %w", err)`
from `VisitProcess`; `ctxCanceled` models `context.Canceled`. -/
inductive GoError where
  | exitError (code : Int)
  | startFailure (msg : Nat)
  | wrappedStart (e : GoError)
  | ctxCanceled
deriving DecidableEq, Repr

/-- `Result` from `pipeline.go`.  Field defaults are Go zero values, so a
partial record literal reads like the corresponding Go struct literal. -/
structure Result where
  type : OperationType := .opSingle
  stdout : List Nat := []
  stderr : List Nat := []
  exitCode : Int := 0
  error : Option GoError := none
  skipped : Bool := false
  children : List Result
  backgroundErrors : List GoError := []

/-- Oracle describing one leaf process: whether `Process.Exec` fails, the
bytes its combined output stream produces, and what `Wait` returns.
`pid` identifies the leaf in the spawn trace. -/
structure ProcBehavior where
  pid : Nat
  startErr : Option GoError := none
  output : List Nat := []
  waitErr : Option GoError := none
deriving DecidableEq, Repr

/-- The `Executable` interface with its two implementations:
`ExecutableProcess` (`executable.go`, constructor `process`) and
`Pipeline` (`pipeline_struct.go`, constructor `pipeline`, whose `right`
is `none` for Background nodes — Go stores a nil interface there). -/
inductive Executable where
  | process (behavior : ProcBehavior) (shutdownTimeout : Nat)
  | pipeline (operation : OperationType) (left : Executable)
      (right : Option Executable) (shutdownTimeout : Nat)

/-- `ProcessRunner` from `process.go`, reduced to what the engine
observes: the bytes of the combined stream and the `Wait` outcome. -/
structure ProcessRunner where
  output : List Nat
  waitErr : Option GoError
deriving DecidableEq, Repr

/-- `BackgroundJob` from `visitor.go`: the single-slot `done` channel is
modelled by the `Result` it will eventually carry (the goroutine runs
`exec.Run(bgCtx)` and sends the result; the returned error is discarded).
The `exec` reference and the `cancel` trigger have no field-level effect
observable in this model. -/
structure BgJob where
  result : Result

/-- Program-crashing outcomes: nil dereference, the
`panic("unknown operation type")` in `Pipeline.Run`, and fuel
exhaustion (a model artefact, never a program behaviour). -/
inductive PanicKind where
  | nilDeref
  | unknownOperation
  | outOfFuel
deriving DecidableEq, Repr

/-- The image of `ExecutionVisitor.startProcess`'s Go return triple
`(*ProcessRunner, *Result, error)`.  Every `return` statement of
`startProcess`/`startNestedPipe` produces either a live runner
`(runner, nil, nil)` or a completed/failed result `(nil, res, err)`.
A nil runner paired with nil result and nil error can only be produced
together with a concurrent nil-dereference panic, which the model
reports as `PanicKind.nilDeref` instead. -/
inductive StartOut where
  | runner (r : ProcessRunner)
  | ran (res : Result) (err : Option GoError)

/-- The image of `ExecutionVisitor.executePipe`'s Go return triple
`(leftResult, rightResult, err)`: `fail` for the `err != nil` returns
(where `leftResult` may be a nil pointer, hence `Option`), `success` for
the final `err == nil` return. -/
inductive PipeOut where
  | fail (leftRes : Option Result) (rightRes : Result) (err : GoError)
  | success (leftRes : Result) (rightRes : Result)

/-- The runner pointer of a `startProcess` return (nil for `ran`). -/
def StartOut.runnerOf : StartOut → Option ProcessRunner
  | .runner r => some r
  | .ran _ _ => none

/-- The result pointer of a `startProcess` return (nil for `runner`). -/
def StartOut.resOf : StartOut → Option Result
  | .runner _ => none
  | .ran r _ => some r

/-- The synthetic skipped child `&Result{Type: OpSingle, Skipped: true}`
appended by `VisitAnd`/`VisitOr`. -/
def skippedResult : Result :=
  { type := .opSingle, skipped := true, children := [] }

/-- The placeholder `&Result{Type: OpSingle, ExitCode: -1}` paired with a
left-side start failure in `executePipe`. -/
def pipePlaceholder : Result :=
  { type := .opSingle, exitCode := -1, children := [] }

/-- The placeholder success result returned by `VisitBackground`. -/
def bgPlaceholder : Result :=
  { type := .opBackground, exitCode := 0, children := [] }

/-- The `&Result{Type: OpPipe, Error: err, ExitCode: -1}` built by
`startNestedPipe` when starting a side fails. -/
def nestedPipeFail (err : GoError) : Result :=
  { type := .opPipe, error := some err, exitCode := -1, children := [] }

/-- `ExecutionVisitor.getExitCode` (`visitor.go`): 0 for nil error, the
`ExitCode()` for an `*exec.ExitError`, −1 otherwise. -/
def getExitCode : Option GoError → Int
  | none => 0
  | some (.exitError c) => c
  | some _ => -1

/-- `Process.Exec` (`process.go`): pipe setup may fail (`startErr`);
`cmd.Start` returns the context error if the context is already done
(no process is spawned); otherwise the process spawns (recorded in the
trace) and a runner is returned. -/
def procExec (ctx : Option GoError) (b : ProcBehavior) :
    Except GoError ProcessRunner × List Nat :=
  match b.startErr with
  | some e => (.error e, [])
  | none =>
    match ctx with
    | some e => (.error e, [])
    | none => (.ok ⟨b.output, b.waitErr⟩, [b.pid])

/-- `ExecutionVisitor.VisitProcess` (`visitor.go`): start the process,
read the combined output, wait, and map the wait error to an exit code.
On start failure the `Result` carries the wrapped error and exit code −1
while the raw error is returned. -/
def visitProcess (ctx : Option GoError) (b : ProcBehavior) :
    Result × Option GoError × List Nat :=
  match procExec ctx b with
  | (.error err, tr) =>
      ({ type := .opSingle, error := some (.wrappedStart err), exitCode := -1,
         children := [] },
       some err, tr)
  | (.ok runner, tr) =>
      ({ type := .opSingle, stdout := runner.output,
         exitCode := getExitCode runner.waitErr, error := runner.waitErr,
         children := [] },
       runner.waitErr, tr)

/-- `ExecutionVisitor.WaitForBackground` (`visitor.go`): for each tracked
job, race its completion channel against the run context.  Live context:
the job's eventual error (if any) is appended to `BackgroundErrors`.
Done context: the cancellation branch runs (cancel, bounded wait) and
appends nothing.  See the schedule note in the file header. -/
def waitForBackground (ctx : Option GoError) (jobs : List BgJob)
    (result : Result) : Result :=
  jobs.foldl
    (fun r job =>
      match ctx with
      | none =>
        match job.result.error with
        | some e => { r with backgroundErrors := r.backgroundErrors ++ [e] }
        | none => r
      | some _ => r)
    result

/-- The tail of `Pipeline.Run` (`pipeline_struct.go`): after the visitor
dispatch, background jobs are drained only when the dispatch returned a
nil error; the result/error pair is then returned. -/
def finishRun (ctx : Option GoError)
    (out : Except PanicKind (Result × Option GoError × List BgJob × List Nat)) :
    Except PanicKind (Result × Option GoError × List Nat) :=
  match out with
  | .error p => .error p
  | .ok (res, none, jobs, tr) => .ok (waitForBackground ctx jobs res, none, tr)
  | .ok (res, some e, _, tr) => .ok (res, some e, tr)

mutual

/-- `Run`: `ExecutableProcess.Run` (`executable.go`) visits the single
process with a fresh visitor (which never accumulates jobs and performs
no drain); `Pipeline.Run` (`pipeline_struct.go`) dispatches on the
operation with a fresh visitor and then drains that visitor's jobs when
the dispatch error is nil.  An `OpSingle` pipeline hits the
`panic("unknown operation type")` default branch. -/
def runExec : Nat → Option GoError → Executable →
    Except PanicKind (Result × Option GoError × List Nat)
  | 0, _, _ => .error .outOfFuel
  | fuel + 1, ctx, e =>
    match e with
    | .process b _ => .ok (visitProcess ctx b)
    | .pipeline op l r _ =>
      match op with
      | .opSingle => .error .unknownOperation
      | .opPipe => finishRun ctx (visitPipe fuel ctx l r)
      | .opAnd => finishRun ctx (visitAnd fuel ctx l r)
      | .opOr => finishRun ctx (visitOr fuel ctx l r)
      | .opBackground => finishRun ctx (visitBackground fuel l)

/-- `ExecutionVisitor.VisitPipe` (`visitor.go`): if the run context is
already done, fail immediately (exit code stays 0 — the Go literal sets
only `Type` and `Error`).  Otherwise run `executePipe` and build the
result: on error, mirror the failed side (left wins when its own error
is non-nil; dereferencing a nil `leftResult` panics); on success, mirror
the right side's stdout/stderr/exit code. -/
def visitPipe : Nat → Option GoError → Executable → Option Executable →
    Except PanicKind (Result × Option GoError × List BgJob × List Nat)
  | 0, _, _, _ => .error .outOfFuel
  | fuel + 1, ctx, left, right =>
    match ctx with
    | some err => .ok ({ type := .opPipe, error := some err, children := [] }, some err, [], [])
    | none =>
      match executePipe fuel left right with
      | .error p => .error p
      | .ok (.fail leftRes? rightRes err, tr) =>
        match leftRes? with
        | none => .error .nilDeref
        | some lr =>
          match lr.error with
          | some _ =>
            .ok ({ type := .opPipe, children := [lr, rightRes],
                   error := some err, exitCode := lr.exitCode,
                   stderr := lr.stderr }, some err, [], tr)
          | none =>
            .ok ({ type := .opPipe, children := [lr, rightRes],
                   error := some err, exitCode := rightRes.exitCode,
                   stderr := rightRes.stderr }, some err, [], tr)
      | .ok (.success lres rres, tr) =>
        .ok ({ type := .opPipe, children := [lres, rres],
               stdout := rres.stdout, stderr := rres.stderr,
               exitCode := rres.exitCode }, none, [], tr)

/-- `ExecutionVisitor.VisitAnd` (`visitor.go`): run left via the generic
`Run`; if the returned error is non-nil or left's exit code is non-zero,
append a synthetic skipped child and mirror left; otherwise run right
(a nil right interface would panic) and mirror right. -/
def visitAnd : Nat → Option GoError → Executable → Option Executable →
    Except PanicKind (Result × Option GoError × List BgJob × List Nat)
  | 0, _, _, _ => .error .outOfFuel
  | fuel + 1, ctx, left, right =>
    match runExec fuel ctx left with
    | .error p => .error p
    | .ok (leftRes, err, tr1) =>
      if err.isSome || leftRes.exitCode != 0 then
        .ok ({ type := .opAnd,
               children := [leftRes, skippedResult],
               exitCode := leftRes.exitCode, error := leftRes.error,
               stdout := leftRes.stdout, stderr := leftRes.stderr },
             leftRes.error, [], tr1)
      else
        match right with
        | none => .error .nilDeref
        | some rr =>
          match runExec fuel ctx rr with
          | .error p => .error p
          | .ok (rightRes, err2, tr2) =>
            .ok ({ type := .opAnd, children := [leftRes, rightRes],
                   exitCode := rightRes.exitCode, error := rightRes.error,
                   stdout := rightRes.stdout, stderr := rightRes.stderr },
                 err2, [], tr1 ++ tr2)

/-- `ExecutionVisitor.VisitOr` (`visitor.go`): run left; if it succeeded
(nil error and zero exit code) append a skipped child and mirror left's
success (the overall error is left unset).  Otherwise run right
unconditionally; overall output/exit code mirror right; the error is nil
when right succeeded, else right's result error, while right's run error
is the returned error. -/
def visitOr : Nat → Option GoError → Executable → Option Executable →
    Except PanicKind (Result × Option GoError × List BgJob × List Nat)
  | 0, _, _, _ => .error .outOfFuel
  | fuel + 1, ctx, left, right =>
    match runExec fuel ctx left with
    | .error p => .error p
    | .ok (leftRes, err, tr1) =>
      if err.isNone && leftRes.exitCode == 0 then
        .ok ({ type := .opOr,
               children := [leftRes, skippedResult],
               exitCode := leftRes.exitCode,
               stdout := leftRes.stdout, stderr := leftRes.stderr },
             none, [], tr1)
      else
        match right with
        | none => .error .nilDeref
        | some rr =>
          match runExec fuel ctx rr with
          | .error p => .error p
          | .ok (rightRes, rightErr, tr2) =>
            if rightErr.isNone && rightRes.exitCode == 0 then
              .ok ({ type := .opOr, children := [leftRes, rightRes],
                     exitCode := rightRes.exitCode,
                     stdout := rightRes.stdout, stderr := rightRes.stderr },
                   none, [], tr1 ++ tr2)
            else
              .ok ({ type := .opOr, children := [leftRes, rightRes],
                     exitCode := rightRes.exitCode,
                     stdout := rightRes.stdout, stderr := rightRes.stderr,
                     error := rightRes.error },
                   rightErr, [], tr1 ++ tr2)

/-- `ExecutionVisitor.VisitBackground` (`visitor.go`): the goroutine runs
`exec.Run` under a freshly derived cancellable context (independent of
the run context, hence `none` here), its result is stored in the job's
single-slot channel (the run error is discarded), the job is appended to
this visitor's job list, and a placeholder success result (exit code 0,
nil error) is returned without awaiting the outcome.  A panic in the
goroutine crashes the program. -/
def visitBackground : Nat → Executable →
    Except PanicKind (Result × Option GoError × List BgJob × List Nat)
  | 0, _ => .error .outOfFuel
  | fuel + 1, e =>
    match runExec fuel none e with
    | .error p => .error p
    | .ok (res, _, tr) =>
      .ok (bgPlaceholder, none, [⟨res⟩], tr)

/-- `ExecutionVisitor.executePipe` (`visitor.go`): start both sides; an
error from starting a side is returned at once (with a fresh exit-code
−1 placeholder for the right side when the left fails).  With both sides
started without error, connect left's output to right's input, read
right's output, wait on both runners (a nil runner is dereferenced here:
panic), rebuild both results from the wait errors, and fail fast with
left's error first, then right's. -/
def executePipe : Nat → Executable → Option Executable →
    Except PanicKind (PipeOut × List Nat)
  | 0, _, _ => .error .outOfFuel
  | fuel + 1, left, right =>
    match startProcess fuel (some left) with
    | .error p => .error p
    | .ok (lOut, tr1) =>
      match lOut with
      | .ran lres (some err) =>
        .ok (.fail (some lres) pipePlaceholder err, tr1)
      | _ =>
        match startProcess fuel right with
        | .error p => .error p
        | .ok (rOut, tr2) =>
          match rOut with
          | .ran rres (some err2) => .ok (.fail lOut.resOf rres err2, tr1 ++ tr2)
          | _ =>
            match lOut.runnerOf, rOut.runnerOf with
            | some lrun, some rrun =>
              let output := rrun.output
              let leftErr := lrun.waitErr
              let rightErr := rrun.waitErr
              let leftRes : Result :=
                { type := .opSingle, exitCode := getExitCode leftErr,
                  error := leftErr, children := [] }
              let rightRes : Result :=
                { type := .opSingle, stdout := output,
                  exitCode := getExitCode rightErr, error := rightErr,
                  children := [] }
              match leftErr with
              | some e => .ok (.fail (some leftRes) rightRes e, tr1 ++ tr2)
              | none =>
                match rightErr with
                | some e => .ok (.fail (some leftRes) rightRes e, tr1 ++ tr2)
                | none => .ok (.success leftRes rightRes, tr1 ++ tr2)
            | _, _ => .error .nilDeref

/-- `ExecutionVisitor.startProcess` (`visitor.go`): a leaf is started
directly (`(runner, nil, nil)` on success, `(nil, res, err)` on start
failure); a `Pipeline` with `OpPipe` goes through `startNestedPipe`; any
other pipeline is run generically and `(nil, result, err)` is returned.
A nil executable (Go nil interface) panics. -/
def startProcess : Nat → Option Executable →
    Except PanicKind (StartOut × List Nat)
  | 0, _ => .error .outOfFuel
  | _ + 1, none => .error .nilDeref
  | fuel + 1, some e =>
    match e with
    | .process b _ =>
      match procExec none b with
      | (.error err, tr) =>
        .ok (.ran { type := .opSingle, error := some err, exitCode := -1,
                    children := [] }
              (some err), tr)
      | (.ok runner, tr) => .ok (.runner runner, tr)
    | .pipeline op l r t =>
      match op with
      | .opPipe => startNestedPipe fuel l r
      | _ =>
        match runExec fuel none (.pipeline op l r t) with
        | .error p => .error p
        | .ok (res, err, tr) => .ok (.ran res err, tr)

/-- `ExecutionVisitor.startNestedPipe` (`visitor.go`): start both sides
(discarding their result pointers); a start error is wrapped in an
`OpPipe` result with exit code −1.  On success the copy goroutine
connects the two runners (dereferencing a nil runner crashes the
program) and the rightmost runner is returned; the left runner is never
waited on here. -/
def startNestedPipe : Nat → Executable → Option Executable →
    Except PanicKind (StartOut × List Nat)
  | 0, _, _ => .error .outOfFuel
  | fuel + 1, l, r =>
    match startProcess fuel (some l) with
    | .error p => .error p
    | .ok (lOut, tr1) =>
      match lOut with
      | .ran _ (some err) =>
        .ok (.ran (nestedPipeFail err) (some err), tr1)
      | _ =>
        match startProcess fuel r with
        | .error p => .error p
        | .ok (rOut, tr2) =>
          match rOut with
          | .ran _ (some err) =>
            .ok (.ran (nestedPipeFail err) (some err), tr1 ++ tr2)
          | _ =>
            match lOut.runnerOf, rOut.runnerOf with
            | some _, some rrun => .ok (.runner rrun, tr1 ++ tr2)
            | _, _ => .error .nilDeref

end


/-! ## Heap model for `WithShutdownTimeout`

`WithShutdownTimeout` mutates the receiver in place
(`executable.go` line 80 / `pipeline_struct.go` line 92:
`e.shutdownTimeout = timeout; return e`).  To express in-place mutation
and observable sharing, nodes are modelled as heap cells addressed by
`Nat`, with operand fields holding addresses. -/

/-- A heap cell: an `ExecutableProcess` (`procN`, holding its process
reference and timeout) or a `Pipeline` (`pipeN`, holding operation tag,
left/right operand addresses — right absent for Background — and
timeout). -/
inductive HNode where
  | procN (process : Nat) (shutdownTimeout : Nat)
  | pipeN (operation : OperationType) (left : Nat) (right : Option Nat)
      (shutdownTimeout : Nat)
deriving DecidableEq, Repr

/-- The heap: addresses to nodes. -/
def Store : Type := Nat → HNode

/-- Overwrite only the `shutdownTimeout` field of a cell. -/
def HNode.setTimeout : HNode → Nat → HNode
  | .procN p _, d => .procN p d
  | .pipeN op l r _, d => .pipeN op l r d

/-- Read the `shutdownTimeout` field. -/
def HNode.timeoutOf : HNode → Nat
  | .procN _ t => t
  | .pipeN _ _ _ t => t

/-- Read the left-operand address (none for a leaf). -/
def HNode.leftOf : HNode → Option Nat
  | .procN _ _ => none
  | .pipeN _ l _ _ => some l

/-- `WithShutdownTimeout` (`executable.go`/`pipeline_struct.go`): assign
the receiver's `shutdownTimeout` field and return the receiver itself. -/
def withShutdownTimeout (s : Store) (p : Nat) (d : Nat) : Store × Nat :=
  (fun q => if q = p then (s q).setTimeout d else s q, p)

/-! ## Well-formedness of the process oracle

The OS contract (`awaitExit` in the spec, Go's `*exec.ExitError`)
guarantees `Wait` returns nil exactly on zero exit status, so an
`exitError` never carries code 0.  Nothing else is assumed. -/

/-- A wait error is well formed when it is not an `exitError` with
code 0. -/
def wfErrB : Option GoError → Bool
  | some (.exitError c) => c != 0
  | _ => true

mutual

/-- Every leaf of the tree has a well-formed wait error. -/
def ExWFB : Executable → Bool
  | .process b _ => wfErrB b.waitErr
  | .pipeline _ l r _ => ExWFB l && ExWFO r

/-- `ExWFB` lifted to an optional operand (a nil operand is trivially
well formed). -/
def ExWFO : Option Executable → Bool
  | none => true
  | some e => ExWFB e

end

mutual

/-- The tree contains no Background node. -/
def noBgB : Executable → Bool
  | .process _ _ => true
  | .pipeline op l r _ => (op != .opBackground) && noBgB l && noBgO r

/-- `noBgB` lifted to an optional operand. -/
def noBgO : Option Executable → Bool
  | none => true
  | some e => noBgB e

end

/-! ## Result-tree invariants -/

/-- A result's exit code is 0 exactly when its error is nil. -/
def exitIff (r : Result) : Prop := r.exitCode = 0 ↔ r.error = none

/-- The synthetic right-side placeholder `&Result{Type: OpSingle,
ExitCode: -1}` that `executePipe` pairs with a left-side start failure:
nil error, exit code −1, no children. -/
def placeholderOk (r : Result) : Prop :=
  r.error = none ∧ r.exitCode = -1 ∧ r.children = []

/-- Every result in the tree satisfies `exitIff`, except that a node may
be the pipe placeholder of `placeholderOk`. -/
inductive TreeOk : Result → Prop where
  | mk (r : Result) (hroot : exitIff r ∨ placeholderOk r)
      (hch : ∀ c ∈ r.children, TreeOk c) : TreeOk r

/-- Invariant tying a returned `Result` to the accompanying Go error:
the result's error field is nil iff the returned error is nil, and a nil
error field forces exit code 0. -/
def RetInv (res : Result) (err : Option GoError) : Prop :=
  (res.error = none ↔ err = none) ∧ (res.error = none → res.exitCode = 0)

/-- Full invariant of a `Run`-shaped return: `RetInv` always, and — for
a live context and a well-formed tree — `exitIff` at the root and
`TreeOk` throughout. -/
def runInv (ctx : Option GoError) (wf : Bool) (res : Result)
    (err : Option GoError) : Prop :=
  RetInv res err ∧ (ctx = none → wf = true → exitIff res ∧ TreeOk res)

/-- Invariant of a `startProcess` return. -/
def startInvW (wf : Bool) : StartOut → Prop
  | .runner run => wf = true → wfErrB run.waitErr = true
  | .ran res err => RetInv res err ∧ (wf = true → exitIff res ∧ TreeOk res)

/-- Invariant of an `executePipe` return. -/
def pipeOutInv (wf : Bool) : PipeOut → Prop
  | .fail lres? rres _ =>
      ∀ lr, lres? = some lr → wf = true →
        exitIff lr ∧ TreeOk lr ∧ (exitIff rres ∨ placeholderOk rres) ∧
        TreeOk rres ∧ (lr.error = none → rres.error ≠ none ∧ exitIff rres)
  | .success lres rres =>
      lres.error = none ∧ lres.exitCode = 0 ∧ lres.children = [] ∧
      rres.error = none ∧ rres.exitCode = 0 ∧ rres.children = []

/-- All `runExec` returns at a given fuel satisfy `runInv`. -/
def RunP (fuel : Nat) : Prop :=
  ∀ ctx e res err tr, runExec fuel ctx e = .ok (res, err, tr) →
    runInv ctx (ExWFB e) res err

/-- All `startProcess` returns at a given fuel satisfy `startInvW`. -/
def StartP (fuel : Nat) : Prop :=
  ∀ e? out tr, startProcess fuel e? = .ok (out, tr) →
    startInvW (ExWFO e?) out

/-! ## Basic lemmas -/

theorem getExitCode_eq_zero_iff (oe : Option GoError) (h : wfErrB oe = true) :
    getExitCode oe = 0 ↔ oe = none := by
  cases oe with
  | none => simp [getExitCode]
  | some e =>
    cases e with
    | exitError c =>
      simp only [wfErrB, bne_iff_ne, ne_eq] at h
      simp [getExitCode, h]
    | startFailure m => simp [getExitCode]
    | wrappedStart e2 => simp [getExitCode]
    | ctxCanceled => simp [getExitCode]

theorem treeOk_nil (r : Result) (h0 : exitIff r ∨ placeholderOk r)
    (hc : r.children = []) : TreeOk r :=
  .mk r h0 (by rw [hc]; intro c hcm; cases hcm)

theorem treeOk_congr (r r' : Result) (he : r'.error = r.error)
    (hx : r'.exitCode = r.exitCode) (hc : r'.children = r.children)
    (h : TreeOk r) : TreeOk r' := by
  cases h with
  | mk _ hroot hch =>
    refine .mk r' ?_ ?_
    · cases hroot with
      | inl hi =>
        exact .inl (by unfold exitIff at hi ⊢; rw [hx, he]; exact hi)
      | inr hp =>
        exact .inr ⟨by rw [he]; exact hp.1, by rw [hx]; exact hp.2.1,
          by rw [hc]; exact hp.2.2⟩
    · intro c hcm
      exact hch c (by rw [← hc]; exact hcm)

theorem wfb_frame (ctx : Option GoError) (jobs : List BgJob) (r : Result) :
    (waitForBackground ctx jobs r).type = r.type ∧
    (waitForBackground ctx jobs r).stdout = r.stdout ∧
    (waitForBackground ctx jobs r).stderr = r.stderr ∧
    (waitForBackground ctx jobs r).exitCode = r.exitCode ∧
    (waitForBackground ctx jobs r).error = r.error ∧
    (waitForBackground ctx jobs r).skipped = r.skipped ∧
    (waitForBackground ctx jobs r).children = r.children := by
  induction jobs generalizing r with
  | nil => simp [waitForBackground]
  | cons j js ih =>
    simp only [waitForBackground, List.foldl_cons] at ih ⊢
    cases ctx with
    | some e => exact ih r
    | none =>
      cases hj : j.result.error with
      | none => simp only [hj]; exact ih r
      | some e =>
        simp only [hj]
        have := ih { r with backgroundErrors := r.backgroundErrors ++ [e] }
        simpa using this

theorem wfb_ctxDone (e : GoError) (jobs : List BgJob) (r : Result) :
    waitForBackground (some e) jobs r = r := by
  induction jobs generalizing r with
  | nil => simp [waitForBackground]
  | cons j js ih =>
    simp only [waitForBackground, List.foldl_cons] at ih ⊢
    exact ih r

theorem wfb_append (jobs : List BgJob) (r : Result) :
    (waitForBackground none jobs r).backgroundErrors =
      r.backgroundErrors ++ jobs.filterMap (fun j => j.result.error) := by
  induction jobs generalizing r with
  | nil => simp [waitForBackground]
  | cons j js ih =>
    simp only [waitForBackground, List.foldl_cons] at ih ⊢
    cases hj : j.result.error with
    | none => simp only [hj, List.filterMap_cons_none]; exact ih r
    | some e =>
      simp only [hj, List.filterMap_cons]
      have := ih { r with backgroundErrors := r.backgroundErrors ++ [e] }
      simpa [List.append_assoc] using this

theorem finishRun_ok_none (ctx : Option GoError) (res : Result)
    (jobs : List BgJob) (tr : List Nat) :
    finishRun ctx (.ok (res, none, jobs, tr)) =
      .ok (waitForBackground ctx jobs res, none, tr) := rfl

theorem finishRun_ok_some (ctx : Option GoError) (res : Result) (e : GoError)
    (jobs : List BgJob) (tr : List Nat) :
    finishRun ctx (.ok (res, some e, jobs, tr)) = .ok (res, some e, tr) := rfl

theorem skipped_exitIff : exitIff skippedResult := by simp [exitIff, skippedResult]

theorem skipped_treeOk : TreeOk skippedResult :=
  treeOk_nil _ (Or.inl skipped_exitIff) rfl

theorem visitAnd_step (fuel : Nat) (H : ∀ m, m < fuel → RunP m) :
    ∀ ctx l r res err jobs tr,
      visitAnd fuel ctx l r = .ok (res, err, jobs, tr) →
      runInv ctx (ExWFB l && ExWFO r) res err := by
  intro ctx l r res err jobs tr h
  cases fuel with
  | zero => exact Except.noConfusion h
  | succ g =>
    have HR : RunP g := H g (Nat.lt_succ_self g)
    simp only [visitAnd] at h
    cases hl : runExec g ctx l with
    | error p => simp only [hl] at h; exact Except.noConfusion h
    | ok trip =>
      obtain ⟨lres, lerr, tr1⟩ := trip
      simp only [hl] at h
      have hInvL := HR ctx l lres lerr tr1 hl
      by_cases hcond : (lerr.isSome || lres.exitCode != 0) = true
      · rw [if_pos hcond] at h
        simp only [Except.ok.injEq, Prod.mk.injEq] at h
        obtain ⟨hres, herr, hjobs, htr⟩ := h
        subst hres herr hjobs htr
        refine ⟨⟨Iff.rfl, fun hen => ?_⟩, fun hctx hwf => ?_⟩
        · exact hInvL.1.2 hen
        · have hwfl : ExWFB l = true := by
            have := hwf; simp only [Bool.and_eq_true] at this; exact this.1
          obtain ⟨hiffL, htreeL⟩ := hInvL.2 hctx hwfl
          refine ⟨hiffL, .mk _ (Or.inl hiffL) ?_⟩
          intro c hc
          rcases List.mem_cons.mp hc with hc | hc
          · exact hc ▸ htreeL
          · rcases List.mem_cons.mp hc with hc | hc
            · exact hc ▸ skipped_treeOk
            · exact absurd hc (List.not_mem_nil c)
      · rw [if_neg hcond] at h
        cases r with
        | none => exact Except.noConfusion h
        | some rr =>
          cases hr : runExec g ctx rr with
          | error p => simp only [hr] at h; exact Except.noConfusion h
          | ok trip2 =>
            obtain ⟨rres, rerr, tr2⟩ := trip2
            simp only [hr] at h
            have hInvR := HR ctx rr rres rerr tr2 hr
            simp only [Except.ok.injEq, Prod.mk.injEq] at h
            obtain ⟨hres, herr, hjobs, htr⟩ := h
            subst hres herr hjobs htr
            refine ⟨⟨hInvR.1.1, fun hen => ?_⟩, fun hctx hwf => ?_⟩
            · exact hInvR.1.2 hen
            · have hsplit : ExWFB l = true ∧ ExWFO (some rr) = true := by
                have := hwf; simp only [Bool.and_eq_true] at this; exact this
              have hwfr : ExWFB rr = true := hsplit.2
              have hwfl : ExWFB l = true := hsplit.1
              obtain ⟨hiffR, htreeR⟩ := hInvR.2 hctx hwfr
              obtain ⟨hiffL, htreeL⟩ := hInvL.2 hctx hwfl
              refine ⟨hiffR, .mk _ (Or.inl hiffR) ?_⟩
              intro c hc
              rcases List.mem_cons.mp hc with hc | hc
              · exact hc ▸ htreeL
              · rcases List.mem_cons.mp hc with hc | hc
                · exact hc ▸ htreeR
                · exact absurd hc (List.not_mem_nil c)

theorem visitOr_step (fuel : Nat) (H : ∀ m, m < fuel → RunP m) :
    ∀ ctx l r res err jobs tr,
      visitOr fuel ctx l r = .ok (res, err, jobs, tr) →
      runInv ctx (ExWFB l && ExWFO r) res err := by
  intro ctx l r res err jobs tr h
  cases fuel with
  | zero => exact Except.noConfusion h
  | succ g =>
    have HR : RunP g := H g (Nat.lt_succ_self g)
    simp only [visitOr] at h
    cases hl : runExec g ctx l with
    | error p => simp only [hl] at h <;> exact Except.noConfusion h
    | ok trip =>
      obtain ⟨lres, lerr, tr1⟩ := trip
      simp only [hl] at h
      have hInvL := HR ctx l lres lerr tr1 hl
      by_cases hcond : (lerr.isNone && lres.exitCode == 0) = true
      · rw [if_pos hcond] at h
        simp only [Except.ok.injEq, Prod.mk.injEq] at h
        obtain ⟨hres, herr, hjobs, htr⟩ := h
        subst hres herr hjobs htr
        have hx : lres.exitCode = 0 := by
          have := hcond
          simp only [Bool.and_eq_true, beq_iff_eq] at this
          exact this.2
        refine ⟨⟨Iff.rfl, fun _ => hx⟩, fun hctx hwf => ?_⟩
        have hwfl : ExWFB l = true := by
          have := hwf; simp only [Bool.and_eq_true] at this; exact this.1
        obtain ⟨hiffL, htreeL⟩ := hInvL.2 hctx hwfl
        refine ⟨⟨fun _ => rfl, fun _ => hx⟩, .mk _ (Or.inl ⟨fun _ => rfl, fun _ => hx⟩) ?_⟩
        intro c hc
        rcases List.mem_cons.mp hc with hc | hc
        · exact hc ▸ htreeL
        · rcases List.mem_cons.mp hc with hc | hc
          · exact hc ▸ skipped_treeOk
          · exact absurd hc (List.not_mem_nil c)
      · rw [if_neg hcond] at h
        cases r with
        | none => exact Except.noConfusion h
        | some rr =>
          cases hr : runExec g ctx rr with
          | error p => simp only [hr] at h <;> exact Except.noConfusion h
          | ok trip2 =>
            obtain ⟨rres, rerr, tr2⟩ := trip2
            simp only [hr] at h
            have hInvR := HR ctx rr rres rerr tr2 hr
            by_cases hc2 : (rerr.isNone && rres.exitCode == 0) = true
            · rw [if_pos hc2] at h
              simp only [Except.ok.injEq, Prod.mk.injEq] at h
              obtain ⟨hres, herr, hjobs, htr⟩ := h
              subst hres herr hjobs htr
              have hx : rres.exitCode = 0 := by
                have := hc2
                simp only [Bool.and_eq_true, beq_iff_eq] at this
                exact this.2
              refine ⟨⟨Iff.rfl, fun _ => hx⟩, fun hctx hwf => ?_⟩
              have hsplit : ExWFB l = true ∧ ExWFO (some rr) = true := by
                have := hwf; simp only [Bool.and_eq_true] at this; exact this
              obtain ⟨hiffL, htreeL⟩ := hInvL.2 hctx hsplit.1
              obtain ⟨hiffR, htreeR⟩ := hInvR.2 hctx hsplit.2
              refine ⟨⟨fun _ => rfl, fun _ => hx⟩,
                .mk _ (Or.inl ⟨fun _ => rfl, fun _ => hx⟩) ?_⟩
              intro c hc
              rcases List.mem_cons.mp hc with hc | hc
              · exact hc ▸ htreeL
              · rcases List.mem_cons.mp hc with hc | hc
                · exact hc ▸ htreeR
                · exact absurd hc (List.not_mem_nil c)
            · rw [if_neg hc2] at h
              simp only [Except.ok.injEq, Prod.mk.injEq] at h
              obtain ⟨hres, herr, hjobs, htr⟩ := h
              subst hres herr hjobs htr
              refine ⟨⟨hInvR.1.1, fun hen => hInvR.1.2 hen⟩, fun hctx hwf => ?_⟩
              have hsplit : ExWFB l = true ∧ ExWFO (some rr) = true := by
                have := hwf; simp only [Bool.and_eq_true] at this; exact this
              obtain ⟨hiffL, htreeL⟩ := hInvL.2 hctx hsplit.1
              obtain ⟨hiffR, htreeR⟩ := hInvR.2 hctx hsplit.2
              refine ⟨hiffR, .mk _ (Or.inl hiffR) ?_⟩
              intro c hc
              rcases List.mem_cons.mp hc with hc | hc
              · exact hc ▸ htreeL
              · rcases List.mem_cons.mp hc with hc | hc
                · exact hc ▸ htreeR
                · exact absurd hc (List.not_mem_nil c)

theorem visitBackground_step (fuel : Nat) :
    ∀ e res err jobs tr, visitBackground fuel e = .ok (res, err, jobs, tr) →
      ∀ ctx wf, runInv ctx wf res err := by
  intro e res err jobs tr h ctx wf
  cases fuel with
  | zero => exact Except.noConfusion h
  | succ g =>
    simp only [visitBackground] at h
    cases hb : runExec g none e with
    | error p => simp only [hb] at h <;> exact Except.noConfusion h
    | ok trip =>
      obtain ⟨bres, berr, btr⟩ := trip
      simp only [hb] at h
      simp only [Except.ok.injEq, Prod.mk.injEq] at h
      obtain ⟨hres, herr, hjobs, htr⟩ := h
      subst hres herr hjobs htr
      refine ⟨⟨Iff.rfl, fun _ => rfl⟩, fun _ _ => ⟨⟨fun _ => rfl, fun _ => rfl⟩, ?_⟩⟩
      exact treeOk_nil _ (Or.inl ⟨fun _ => rfl, fun _ => rfl⟩) rfl

theorem nestedPipeFail_retInv (e : GoError) : RetInv (nestedPipeFail e) (some e) :=
  ⟨by simp [nestedPipeFail], fun hen => absurd hen (by simp [nestedPipeFail])⟩

theorem nestedPipeFail_exitIff (e : GoError) : exitIff (nestedPipeFail e) := by
  constructor
  · intro hx; exact absurd hx (by simp [nestedPipeFail])
  · intro hn; exact absurd hn (by simp [nestedPipeFail])

theorem nestedPipeFail_treeOk (e : GoError) : TreeOk (nestedPipeFail e) :=
  treeOk_nil _ (Or.inl (nestedPipeFail_exitIff e)) rfl

theorem nestedPipeFail_startInv (e : GoError) (wf : Bool) :
    startInvW wf (.ran (nestedPipeFail e) (some e)) :=
  ⟨nestedPipeFail_retInv e,
   fun _ => ⟨nestedPipeFail_exitIff e, nestedPipeFail_treeOk e⟩⟩

theorem startNested_inv (fuel : Nat) (H : ∀ m, m < fuel → StartP m) :
    ∀ l r out tr, startNestedPipe fuel l r = .ok (out, tr) →
      startInvW (ExWFB l && ExWFO r) out := by
  intro l r out tr h
  cases fuel with
  | zero => exact Except.noConfusion h
  | succ g =>
    have HS : StartP g := H g (Nat.lt_succ_self g)
    simp only [startNestedPipe] at h
    cases hl : startProcess g (some l) with
    | error p => simp only [hl] at h <;> exact Except.noConfusion h
    | ok lpair =>
      obtain ⟨lOut, tr1⟩ := lpair
      simp only [hl] at h
      have hInvL := HS (some l) lOut tr1 hl
      cases lOut with
      | ran lres lerrOpt =>
        cases lerrOpt with
        | some errL =>
          simp only [Except.ok.injEq, Prod.mk.injEq] at h
          obtain ⟨ho, ht⟩ := h
          subst ho ht
          exact nestedPipeFail_startInv errL _
        | none =>
          cases hr : startProcess g r with
          | error p => simp only [hr] at h <;> exact Except.noConfusion h
          | ok rpair =>
            obtain ⟨rOut, tr2⟩ := rpair
            simp only [hr] at h
            cases rOut with
            | ran rres rerrOpt =>
              cases rerrOpt with
              | some errR =>
                simp only [Except.ok.injEq, Prod.mk.injEq] at h
                obtain ⟨ho, ht⟩ := h
                subst ho ht
                exact nestedPipeFail_startInv errR _
              | none =>
                simp only [StartOut.runnerOf] at h
                exact Except.noConfusion h
            | runner rrun =>
              simp only [StartOut.runnerOf] at h
              exact Except.noConfusion h
      | runner lrun =>
        cases hr : startProcess g r with
        | error p => simp only [hr] at h <;> exact Except.noConfusion h
        | ok rpair =>
          obtain ⟨rOut, tr2⟩ := rpair
          simp only [hr] at h
          have hInvR := HS r rOut tr2 hr
          cases rOut with
          | ran rres rerrOpt =>
            cases rerrOpt with
            | some errR =>
              simp only [Except.ok.injEq, Prod.mk.injEq] at h
              obtain ⟨ho, ht⟩ := h
              subst ho ht
              exact nestedPipeFail_startInv errR _
            | none =>
              simp only [StartOut.runnerOf] at h
              exact Except.noConfusion h
          | runner rrun =>
            simp only [StartOut.runnerOf, Except.ok.injEq, Prod.mk.injEq] at h
            obtain ⟨ho, ht⟩ := h
            subst ho ht
            intro hwf
            have hwfr : ExWFO r = true := by
              have := hwf; simp only [Bool.and_eq_true] at this; exact this.2
            exact hInvR hwfr

theorem startP_step (fuel : Nat) (H : ∀ m, m < fuel → RunP m ∧ StartP m) :
    StartP fuel := by
  intro e? out tr h
  cases fuel with
  | zero => exact Except.noConfusion h
  | succ g =>
    cases e? with
    | none => exact Except.noConfusion h
    | some e =>
      cases e with
      | process b t =>
        cases hse : b.startErr with
        | some e0 =>
          simp only [startProcess, procExec, hse] at h
          simp only [Except.ok.injEq, Prod.mk.injEq] at h
          obtain ⟨ho, ht⟩ := h
          subst ho ht
          refine ⟨⟨by simp, fun hen => absurd hen (by simp)⟩, fun _ => ⟨?_, ?_⟩⟩
          · exact ⟨fun hx => by simp at hx, fun hn => by simp at hn⟩
          · exact treeOk_nil _
              (Or.inl ⟨fun hx => by simp at hx, fun hn => by simp at hn⟩) rfl
        | none =>
          simp only [startProcess, procExec, hse] at h
          simp only [Except.ok.injEq, Prod.mk.injEq] at h
          obtain ⟨ho, ht⟩ := h
          subst ho ht
          intro hwf
          exact hwf
      | pipeline op l r t =>
        have HRg : RunP g := (H g (Nat.lt_succ_self g)).1
        cases op with
        | opPipe =>
          simp only [startProcess] at h
          have := startNested_inv g (fun m hm => (H m (Nat.lt_of_lt_of_le hm (Nat.le_succ g))).2) l r out tr h
          exact this
        | opSingle =>
          simp only [startProcess] at h
          cases hrun : runExec g none (.pipeline .opSingle l r t) with
          | error p => simp only [hrun] at h <;> exact Except.noConfusion h
          | ok trip =>
            obtain ⟨res0, err0, tr0⟩ := trip
            simp only [hrun] at h
            simp only [Except.ok.injEq, Prod.mk.injEq] at h
            obtain ⟨ho, ht⟩ := h
            subst ho ht
            have hi := HRg none _ res0 err0 tr0 hrun
            exact ⟨hi.1, fun hwf => hi.2 rfl hwf⟩
        | opAnd =>
          simp only [startProcess] at h
          cases hrun : runExec g none (.pipeline .opAnd l r t) with
          | error p => simp only [hrun] at h <;> exact Except.noConfusion h
          | ok trip =>
            obtain ⟨res0, err0, tr0⟩ := trip
            simp only [hrun] at h
            simp only [Except.ok.injEq, Prod.mk.injEq] at h
            obtain ⟨ho, ht⟩ := h
            subst ho ht
            have hi := HRg none _ res0 err0 tr0 hrun
            exact ⟨hi.1, fun hwf => hi.2 rfl hwf⟩
        | opOr =>
          simp only [startProcess] at h
          cases hrun : runExec g none (.pipeline .opOr l r t) with
          | error p => simp only [hrun] at h <;> exact Except.noConfusion h
          | ok trip =>
            obtain ⟨res0, err0, tr0⟩ := trip
            simp only [hrun] at h
            simp only [Except.ok.injEq, Prod.mk.injEq] at h
            obtain ⟨ho, ht⟩ := h
            subst ho ht
            have hi := HRg none _ res0 err0 tr0 hrun
            exact ⟨hi.1, fun hwf => hi.2 rfl hwf⟩
        | opBackground =>
          simp only [startProcess] at h
          cases hrun : runExec g none (.pipeline .opBackground l r t) with
          | error p => simp only [hrun] at h <;> exact Except.noConfusion h
          | ok trip =>
            obtain ⟨res0, err0, tr0⟩ := trip
            simp only [hrun] at h
            simp only [Except.ok.injEq, Prod.mk.injEq] at h
            obtain ⟨ho, ht⟩ := h
            subst ho ht
            have hi := HRg none _ res0 err0 tr0 hrun
            exact ⟨hi.1, fun hwf => hi.2 rfl hwf⟩

theorem pipePlaceholder_ok : placeholderOk pipePlaceholder := by
  refine ⟨rfl, rfl, rfl⟩

theorem pipePlaceholder_treeOk : TreeOk pipePlaceholder :=
  treeOk_nil _ (Or.inr pipePlaceholder_ok) rfl

theorem execP_step (fuel : Nat) (H : ∀ m, m < fuel → StartP m) :
    ∀ l r out tr, executePipe fuel l r = .ok (out, tr) →
      pipeOutInv (ExWFB l && ExWFO r) out := by
  intro l r out tr h
  cases fuel with
  | zero => exact Except.noConfusion h
  | succ g =>
    have HS : StartP g := H g (Nat.lt_succ_self g)
    simp only [executePipe] at h
    cases hl : startProcess g (some l) with
    | error p => simp only [hl] at h <;> exact Except.noConfusion h
    | ok lpair =>
      obtain ⟨lOut, tr1⟩ := lpair
      simp only [hl] at h
      have hInvL := HS (some l) lOut tr1 hl
      cases lOut with
      | ran lres lerrOpt =>
        cases lerrOpt with
        | some errL =>
          -- left failed to start: .fail (some lres) pipePlaceholder errL
          simp only [Except.ok.injEq, Prod.mk.injEq] at h
          obtain ⟨ho, ht⟩ := h
          subst ho ht
          intro lr hlr hwf
          cases hlr
          have hwfl : ExWFB l = true := by
            have := hwf; simp only [Bool.and_eq_true] at this; exact this.1
          obtain ⟨hiffL, htreeL⟩ := hInvL.2 hwfl
          refine ⟨hiffL, htreeL, Or.inr pipePlaceholder_ok, pipePlaceholder_treeOk, ?_⟩
          intro hen
          exact absurd (hInvL.1.1.mp hen) (by simp)
        | none =>
          -- left ran as a composite with nil error (no runner)
          cases hr : startProcess g r with
          | error p => simp only [hr] at h <;> exact Except.noConfusion h
          | ok rpair =>
            obtain ⟨rOut, tr2⟩ := rpair
            simp only [hr] at h
            have hInvR := HS r rOut tr2 hr
            cases rOut with
            | ran rres rerrOpt =>
              cases rerrOpt with
              | some errR =>
                -- right failed (start failure or composite error)
                simp only [StartOut.resOf, Except.ok.injEq, Prod.mk.injEq] at h
                obtain ⟨ho, ht⟩ := h
                subst ho ht
                intro lr hlr hwf
                cases hlr
                have hsplit : ExWFB l = true ∧ ExWFO r = true := by
                  have := hwf; simp only [Bool.and_eq_true] at this; exact this
                obtain ⟨hiffL, htreeL⟩ := hInvL.2 hsplit.1
                obtain ⟨hiffR, htreeR⟩ := hInvR.2 hsplit.2
                refine ⟨hiffL, htreeL, Or.inl hiffR, htreeR, ?_⟩
                intro _
                refine ⟨?_, hiffR⟩
                intro hren
                exact absurd (hInvR.1.1.mp hren) (by simp)
              | none =>
                -- connect phase with left runner nil: panic
                simp only [StartOut.runnerOf] at h
                exact Except.noConfusion h
            | runner rrun =>
              simp only [StartOut.runnerOf] at h
              exact Except.noConfusion h
      | runner lrun =>
        have hwfLrun : ExWFB l = true → wfErrB lrun.waitErr = true := hInvL
        cases hr : startProcess g r with
        | error p => simp only [hr] at h <;> exact Except.noConfusion h
        | ok rpair =>
          obtain ⟨rOut, tr2⟩ := rpair
          simp only [hr] at h
          have hInvR := HS r rOut tr2 hr
          cases rOut with
          | ran rres rerrOpt =>
            cases rerrOpt with
            | some errR =>
              -- right failed; left result pointer is nil
              simp only [StartOut.resOf, Except.ok.injEq, Prod.mk.injEq] at h
              obtain ⟨ho, ht⟩ := h
              subst ho ht
              intro lr hlr
              exact absurd hlr (by simp)
            | none =>
              simp only [StartOut.runnerOf] at h
              exact Except.noConfusion h
          | runner rrun =>
            have hwfRrun : ExWFO r = true → wfErrB rrun.waitErr = true := hInvR
            simp only [StartOut.runnerOf] at h
            cases hle : lrun.waitErr with
            | some eL =>
              simp only [hle, Except.ok.injEq, Prod.mk.injEq] at h
              obtain ⟨ho, ht⟩ := h
              subst ho ht
              intro lr hlr hwf
              cases hlr
              have hsplit : ExWFB l = true ∧ ExWFO r = true := by
                have := hwf; simp only [Bool.and_eq_true] at this; exact this
              have hwl := hwfLrun hsplit.1
              have hwr := hwfRrun hsplit.2
              rw [hle] at hwl
              have hxl : getExitCode (some eL) ≠ 0 := by
                intro hx
                have := (getExitCode_eq_zero_iff _ hwl).mp hx
                exact Option.noConfusion this
              refine ⟨⟨fun hx => absurd hx hxl, fun hn => absurd hn (by simp)⟩,
                treeOk_nil _ (Or.inl ⟨fun hx => absurd hx hxl,
                  fun hn => absurd hn (by simp)⟩) rfl,
                Or.inl (getExitCode_eq_zero_iff _ hwr), ?_, ?_⟩
              · exact treeOk_nil _ (Or.inl (getExitCode_eq_zero_iff _ hwr)) rfl
              · intro hen
                exact absurd hen (by simp)
            | none =>
              cases hre : rrun.waitErr with
              | some eR =>
                simp only [hle, hre, Except.ok.injEq, Prod.mk.injEq] at h
                obtain ⟨ho, ht⟩ := h
                subst ho ht
                intro lr hlr hwf
                cases hlr
                have hsplit : ExWFB l = true ∧ ExWFO r = true := by
                  have := hwf; simp only [Bool.and_eq_true] at this; exact this
                have hwr := hwfRrun hsplit.2
                rw [hre] at hwr
                refine ⟨⟨fun _ => rfl, fun _ => rfl⟩,
                  treeOk_nil _ (Or.inl ⟨fun _ => rfl, fun _ => rfl⟩) rfl,
                  Or.inl (getExitCode_eq_zero_iff _ hwr), ?_, ?_⟩
                · exact treeOk_nil _ (Or.inl (getExitCode_eq_zero_iff _ hwr)) rfl
                · intro _
                  refine ⟨by simp [hre], ?_⟩
                  exact getExitCode_eq_zero_iff _ hwr
              | none =>
                simp only [hle, hre, Except.ok.injEq, Prod.mk.injEq] at h
                obtain ⟨ho, ht⟩ := h
                subst ho ht
                exact ⟨rfl, rfl, rfl, rfl, rfl, rfl⟩

theorem visitPipe_step (fuel : Nat) (H : ∀ m, m < fuel → StartP m) :
    ∀ ctx l r res err jobs tr,
      visitPipe fuel ctx l r = .ok (res, err, jobs, tr) →
      runInv ctx (ExWFB l && ExWFO r) res err := by
  intro ctx l r res err jobs tr h
  cases fuel with
  | zero => exact Except.noConfusion h
  | succ g =>
    simp only [visitPipe] at h
    cases ctx with
    | some ce =>
      simp only [Except.ok.injEq, Prod.mk.injEq] at h
      obtain ⟨hres, herr, hjobs, htr⟩ := h
      subst hres herr hjobs htr
      refine ⟨⟨Iff.rfl, fun hen => absurd hen (by simp)⟩, fun hctx _ => ?_⟩
      exact absurd hctx (by simp)
    | none =>
      cases hep : executePipe g l r with
      | error p => simp only [hep] at h <;> exact Except.noConfusion h
      | ok pr =>
        obtain ⟨pout, tr0⟩ := pr
        simp only [hep] at h
        have hPI := execP_step g (fun m hm => H m (Nat.lt_of_lt_of_le hm (Nat.le_succ g)))
          l r pout tr0 hep
        cases pout with
        | fail lres? rres errF =>
          cases lres? with
          | none => exact Except.noConfusion h
          | some lr =>
            cases hle : lr.error with
            | some e0 =>
              simp only [hle, Except.ok.injEq, Prod.mk.injEq] at h
              obtain ⟨hres, herr, hjobs, htr⟩ := h
              subst hres herr hjobs htr
              refine ⟨⟨Iff.rfl, fun hen => absurd hen (by simp)⟩, fun _ hwf => ?_⟩
              obtain ⟨hiffL, htreeL, hiffR, htreeR, hlast⟩ := hPI lr rfl hwf
              have hxl : lr.exitCode ≠ 0 := by
                intro hx
                have hxn := hiffL.mp hx
                rw [hle] at hxn
                exact Option.noConfusion hxn
              refine ⟨⟨fun hx => absurd hx hxl, fun hn => absurd hn (by simp)⟩,
                .mk _ (Or.inl ⟨fun hx => absurd hx hxl, fun hn => absurd hn (by simp)⟩) ?_⟩
              intro c hc
              rcases List.mem_cons.mp hc with hc | hc
              · exact hc ▸ htreeL
              · rcases List.mem_cons.mp hc with hc | hc
                · exact hc ▸ htreeR
                · exact absurd hc (List.not_mem_nil c)
            | none =>
              simp only [hle, Except.ok.injEq, Prod.mk.injEq] at h
              obtain ⟨hres, herr, hjobs, htr⟩ := h
              subst hres herr hjobs htr
              refine ⟨⟨Iff.rfl, fun hen => absurd hen (by simp)⟩, fun _ hwf => ?_⟩
              obtain ⟨hiffL, htreeL, hiffR, htreeR, hlast⟩ := hPI lr rfl hwf
              obtain ⟨hrerr, hriff⟩ := hlast hle
              have hxr : rres.exitCode ≠ 0 := by
                intro hx
                exact hrerr (hriff.mp hx)
              refine ⟨⟨fun hx => absurd hx hxr, fun hn => absurd hn (by simp)⟩,
                .mk _ (Or.inl ⟨fun hx => absurd hx hxr, fun hn => absurd hn (by simp)⟩) ?_⟩
              intro c hc
              rcases List.mem_cons.mp hc with hc | hc
              · exact hc ▸ htreeL
              · rcases List.mem_cons.mp hc with hc | hc
                · exact hc ▸ htreeR
                · exact absurd hc (List.not_mem_nil c)
        | success lres rres =>
          simp only [Except.ok.injEq, Prod.mk.injEq] at h
          obtain ⟨hres, herr, hjobs, htr⟩ := h
          subst hres herr hjobs htr
          obtain ⟨hle, hlx, hlc, hre, hrx, hrc⟩ := hPI
          refine ⟨⟨Iff.rfl, fun _ => hrx⟩, fun _ _ => ?_⟩
          refine ⟨⟨fun _ => rfl, fun _ => hrx⟩,
            .mk _ (Or.inl ⟨fun _ => rfl, fun _ => hrx⟩) ?_⟩
          intro c hc
          rcases List.mem_cons.mp hc with hc | hc
          · subst hc
            exact treeOk_nil _ (Or.inl ⟨fun _ => hle, fun _ => hlx⟩) hlc
          · rcases List.mem_cons.mp hc with hc | hc
            · subst hc
              exact treeOk_nil _ (Or.inl ⟨fun _ => hre, fun _ => hrx⟩) hrc
            · exact absurd hc (List.not_mem_nil c)

theorem finish_transfer (ctx : Option GoError) (wf : Bool)
    (res0 : Result) (err0 : Option GoError) (jobs0 : List BgJob)
    (tr0 : List Nat) (res : Result) (err : Option GoError) (tr : List Nat)
    (hInv : runInv ctx wf res0 err0)
    (h : finishRun ctx (.ok (res0, err0, jobs0, tr0)) = .ok (res, err, tr)) :
    runInv ctx wf res err := by
  cases err0 with
  | none =>
    rw [finishRun_ok_none] at h
    simp only [Except.ok.injEq, Prod.mk.injEq] at h
    obtain ⟨hres, herr, htr⟩ := h
    subst hres herr htr
    obtain ⟨hty, hso, hse, hxc, herr2, hsk, hch⟩ := wfb_frame ctx jobs0 res0
    refine ⟨⟨?_, ?_⟩, fun hctx hwf => ?_⟩
    · rw [herr2]; exact hInv.1.1
    · intro hen; rw [hxc]; exact hInv.1.2 (by rw [herr2] at hen; exact hen)
    · obtain ⟨hiff, htree⟩ := hInv.2 hctx hwf
      refine ⟨?_, treeOk_congr _ _ herr2 hxc hch htree⟩
      unfold exitIff at hiff ⊢
      rw [hxc, herr2]
      exact hiff
  | some e0 =>
    rw [finishRun_ok_some] at h
    simp only [Except.ok.injEq, Prod.mk.injEq] at h
    obtain ⟨hres, herr, htr⟩ := h
    subst hres herr htr
    exact hInv

theorem runP_step (fuel : Nat) (H : ∀ m, m < fuel → RunP m ∧ StartP m) :
    RunP fuel := by
  intro ctx e res err tr h
  cases fuel with
  | zero => exact Except.noConfusion h
  | succ g =>
    have HRun : ∀ m, m < g → RunP m :=
      fun m hm => (H m (Nat.lt_of_lt_of_le hm (Nat.le_succ g))).1
    have HStart : ∀ m, m < g → StartP m :=
      fun m hm => (H m (Nat.lt_of_lt_of_le hm (Nat.le_succ g))).2
    have HRunG : ∀ m, m < g + 1 → RunP m := fun m hm => (H m hm).1
    have HStartG : ∀ m, m < g + 1 → StartP m := fun m hm => (H m hm).2
    cases e with
    | process b t =>
      simp only [runExec] at h
      cases hse : b.startErr with
      | some e0 =>
        simp only [visitProcess, procExec, hse] at h
        simp only [Except.ok.injEq, Prod.mk.injEq] at h
        obtain ⟨hres, herr, htr⟩ := h
        subst hres herr htr
        refine ⟨⟨⟨fun hx => absurd hx (by simp), fun hx => absurd hx (by simp)⟩,
          fun hen => absurd hen (by simp)⟩, fun _ _ => ?_⟩
        refine ⟨⟨fun hx => by simp at hx, fun hn => by simp at hn⟩, ?_⟩
        exact treeOk_nil _
          (Or.inl ⟨fun hx => by simp at hx, fun hn => by simp at hn⟩) rfl
      | none =>
        cases ctx with
        | some ce =>
          simp only [visitProcess, procExec, hse] at h
          simp only [Except.ok.injEq, Prod.mk.injEq] at h
          obtain ⟨hres, herr, htr⟩ := h
          subst hres herr htr
          refine ⟨⟨⟨fun hx => absurd hx (by simp), fun hx => absurd hx (by simp)⟩,
            fun hen => absurd hen (by simp)⟩, fun hctx _ => absurd hctx (by simp)⟩
        | none =>
          simp only [visitProcess, procExec, hse] at h
          simp only [Except.ok.injEq, Prod.mk.injEq] at h
          obtain ⟨hres, herr, htr⟩ := h
          subst hres herr htr
          refine ⟨⟨Iff.rfl, fun hen => ?_⟩, fun _ hwf => ?_⟩
          · have hb : b.waitErr = none := hen
            show getExitCode b.waitErr = 0
            rw [hb]
            rfl
          · have hwfb : wfErrB b.waitErr = true := hwf
            refine ⟨getExitCode_eq_zero_iff _ hwfb, ?_⟩
            exact treeOk_nil _ (Or.inl (getExitCode_eq_zero_iff _ hwfb)) rfl
    | pipeline op l r t =>
      cases op with
      | opSingle => exact Except.noConfusion h
      | opPipe =>
        simp only [runExec] at h
        cases hv : visitPipe g ctx l r with
        | error p => simp only [hv, finishRun] at h <;> exact Except.noConfusion h
        | ok quad =>
          obtain ⟨res0, err0, jobs0, tr0⟩ := quad
          rw [hv] at h
          have hVI := visitPipe_step g HStart ctx l r res0 err0 jobs0 tr0 hv
          exact finish_transfer ctx _ res0 err0 jobs0 tr0 res err tr hVI h
      | opAnd =>
        simp only [runExec] at h
        cases hv : visitAnd g ctx l r with
        | error p => simp only [hv, finishRun] at h <;> exact Except.noConfusion h
        | ok quad =>
          obtain ⟨res0, err0, jobs0, tr0⟩ := quad
          rw [hv] at h
          have hVI := visitAnd_step g HRun ctx l r res0 err0 jobs0 tr0 hv
          exact finish_transfer ctx _ res0 err0 jobs0 tr0 res err tr hVI h
      | opOr =>
        simp only [runExec] at h
        cases hv : visitOr g ctx l r with
        | error p => simp only [hv, finishRun] at h <;> exact Except.noConfusion h
        | ok quad =>
          obtain ⟨res0, err0, jobs0, tr0⟩ := quad
          rw [hv] at h
          have hVI := visitOr_step g HRun ctx l r res0 err0 jobs0 tr0 hv
          exact finish_transfer ctx _ res0 err0 jobs0 tr0 res err tr hVI h
      | opBackground =>
        simp only [runExec] at h
        cases hv : visitBackground g l with
        | error p => simp only [hv, finishRun] at h <;> exact Except.noConfusion h
        | ok quad =>
          obtain ⟨res0, err0, jobs0, tr0⟩ := quad
          rw [hv] at h
          have hVI := visitBackground_step g l res0 err0 jobs0 tr0 hv ctx
            (ExWFB (Executable.pipeline .opBackground l r t))
          exact finish_transfer ctx _ res0 err0 jobs0 tr0 res err tr hVI h

theorem master : ∀ fuel, RunP fuel ∧ StartP fuel := by
  intro fuel
  induction fuel using Nat.strong_induction_on with
  | _ fuel IH => exact ⟨runP_step fuel IH, startP_step fuel IH⟩

/-! ## Sample leaf processes used in concrete runs -/

/-- A leaf whose process starts, emits `out`, and exits 0. -/
def okProc (pid : Nat) (out : List Nat) : Executable :=
  .process { pid := pid, output := out } 5

/-- A leaf whose process starts, emits nothing, and exits 1
(`Wait` returns an `*exec.ExitError` with code 1). -/
def failProc (pid : Nat) : Executable :=
  .process { pid := pid, waitErr := some (.exitError 1) } 5

/-! ## Claim C1 -/

/-- Pipe of two echoes, run under an already-cancelled context. -/
def c1cexTree : Executable :=
  .pipeline .opPipe (okProc 1 []) (some (okProc 2 [])) 5

/-- The Result `VisitPipe` builds when the run context is already done:
only `Type` and `Error` are set, so the exit code stays 0. -/
def c1cexRes : Result :=
  { type := .opPipe, error := some .ctxCanceled, children := [] }

/-- C1, counterexample: the claim says exit code 0 iff error nil for
every Result of any Run, with Or-recovery the single exception.  Running
a Pipe under an already-cancelled context yields a Result with a non-nil
error (the context error) and exit code 0 — not an Or-recovery — so the
claimed equivalence fails at this input. -/
theorem c1_counterexample :
    runExec 3 (some .ctxCanceled) c1cexTree =
      .ok (c1cexRes, some .ctxCanceled, []) ∧
    c1cexRes.exitCode = 0 ∧ c1cexRes.error ≠ none :=
  ⟨rfl, rfl, fun h => Option.noConfusion h⟩

/-- C1 (amended): for every Run on a well-formed tree whose run context
is live (not already done) that returns without panicking, the root
Result's exit code is 0 iff its error is nil, the error is nil iff the
returned Go error is nil, and every Result in the tree satisfies the
same equivalence except the synthetic exit-code −1 placeholder right
child produced when a Pipe's left side fails to start (`TreeOk`).
Or-recovery satisfies the equivalence at the root (error nil, exit 0)
while the left child keeps its own failing error and exit code. -/
theorem c1_exit_iff_error_live_ctx (fuel : Nat) (e : Executable)
    (res : Result) (err : Option GoError) (tr : List Nat)
    (hwf : ExWFB e = true)
    (h : runExec fuel none e = .ok (res, err, tr)) :
    (res.exitCode = 0 ↔ res.error = none) ∧ (res.error = none ↔ err = none) ∧
    TreeOk res := by
  have hm := (master fuel).1 none e res err tr h
  exact ⟨(hm.2 rfl hwf).1, hm.1.1, (hm.2 rfl hwf).2⟩

/-- The Result of running a single succeeding echo leaf. -/
def echoRes : Result := { type := .opSingle, stdout := [104], children := [] }

/-- C1 witness: the amended theorem applied to a concrete one-leaf run. -/
theorem c1_witness :
    ExWFB (okProc 1 [104]) = true ∧
    runExec 1 none (okProc 1 [104]) = .ok (echoRes, none, [1]) ∧
    ((echoRes.exitCode = 0 ↔ echoRes.error = none) ∧
     (echoRes.error = none ↔ (none : Option GoError) = none) ∧ TreeOk echoRes) :=
  ⟨rfl, rfl, c1_exit_iff_error_live_ctx 1 (okProc 1 [104]) echoRes none [1] rfl rfl⟩

/-! ## Claim C2 -/

/-- `false | echo("x") | echo("y")`: a three-stage chain whose FIRST
stage fails. -/
def c2cexTree : Executable :=
  .pipeline .opPipe
    (.pipeline .opPipe (failProc 1) (some (okProc 2 [120])) 5)
    (some (okProc 3 [121])) 5

/-- C2, counterexample: the claim says a failure in any stage of a
multi-stage chain yields a non-nil error and a non-zero exit code.  In
`false | echo("x") | echo("y")` the first stage's runner is started by
`startNestedPipe` but never waited on (only the rightmost runner of the
nested side is returned), so the chain reports full success — error nil,
exit code 0 — although stage one exits 1.  All three stages spawn
(trace `[1, 2, 3]`). -/
theorem c2_counterexample :
    runExec 9 none c2cexTree =
      .ok ({ type := .opPipe, stdout := [121], exitCode := 0, error := none,
             children :=
               [{ type := .opSingle, exitCode := 0, error := none,
                  children := [] },
                { type := .opSingle, stdout := [121], exitCode := 0,
                  error := none, children := [] }] },
           none, [1, 2, 3]) :=
  rfl

/-- `echo("x") | false | echo("y")`: the claim's own example chain, whose
failing stage is the awaited runner of the nested left side. -/
def c2chainTree : Executable :=
  .pipeline .opPipe
    (.pipeline .opPipe (okProc 1 [120]) (some (failProc 2)) 5)
    (some (okProc 3 [121])) 5

/-- C2 (amended): for a Pipe execution, only the final stage of each
flattened side is awaited.  If that awaited left side failed, the Pipe's
error, exit code, and stderr mirror left's; else if the right side
failed, they mirror right's; when both awaited runners fail, left wins
the tie-break.  On success, stdout/exit code mirror the rightmost stage.
The example chain `echo("x").Pipe(false()).Pipe(echo("y"))` — whose
failing stage is the awaited runner of the left side — yields error
`exitError 1` and exit code 1.  (A failure in a non-awaited earlier
stage of a nested side is dropped; see the counterexample.) -/
theorem c2_pipe_fail_fast :
    (∀ fuel l r lres rres errF tr,
       executePipe fuel l r = .ok (.fail (some lres) rres errF, tr) →
       lres.error ≠ none →
       visitPipe (fuel + 1) none l r =
         .ok ({ type := .opPipe, children := [lres, rres],
                error := some errF, exitCode := lres.exitCode,
                stderr := lres.stderr }, some errF, [], tr)) ∧
    (∀ fuel l r lres rres errF tr,
       executePipe fuel l r = .ok (.fail (some lres) rres errF, tr) →
       lres.error = none →
       visitPipe (fuel + 1) none l r =
         .ok ({ type := .opPipe, children := [lres, rres],
                error := some errF, exitCode := rres.exitCode,
                stderr := rres.stderr }, some errF, [], tr)) ∧
    (∀ fuel l r lres rres tr,
       executePipe fuel l r = .ok (.success lres rres, tr) →
       visitPipe (fuel + 1) none l r =
         .ok ({ type := .opPipe, children := [lres, rres],
                stdout := rres.stdout, stderr := rres.stderr,
                exitCode := rres.exitCode }, none, [], tr)) ∧
    (∀ fuel l r lrun rrun tr1 tr2 eL,
       startProcess fuel (some l) = .ok (.runner lrun, tr1) →
       startProcess fuel r = .ok (.runner rrun, tr2) →
       lrun.waitErr = some eL →
       executePipe (fuel + 1) l r =
         .ok (.fail (some { type := .opSingle,
                            exitCode := getExitCode (some eL),
                            error := some eL, children := [] })
                { type := .opSingle, stdout := rrun.output,
                  exitCode := getExitCode rrun.waitErr,
                  error := rrun.waitErr, children := [] } eL,
              tr1 ++ tr2)) ∧
    (runExec 9 none c2chainTree =
       .ok ({ type := .opPipe, exitCode := 1, error := some (.exitError 1),
              children :=
                [{ type := .opSingle, exitCode := 1,
                   error := some (.exitError 1), children := [] },
                 { type := .opSingle, stdout := [121], exitCode := 0,
                   error := none, children := [] }] },
            some (.exitError 1), [1, 2, 3])) := by
  refine ⟨?_, ?_, ?_, ?_, rfl⟩
  · intro fuel l r lres rres errF tr h hne
    simp only [visitPipe, h]
    cases hle : lres.error with
    | none => exact absurd hle hne
    | some e0 => simp only [hle]
  · intro fuel l r lres rres errF tr h hen
    simp only [visitPipe, h, hen]
  · intro fuel l r lres rres tr h
    simp only [visitPipe, h]
  · intro fuel l r lrun rrun tr1 tr2 eL h1 h2 hle
    simp only [executePipe, h1, h2, StartOut.runnerOf, hle]

/-- The left result the connect phase of `executePipe` rebuilds for a
failing awaited left runner (exit 1). -/
def c2wl : Result :=
  { type := .opSingle, exitCode := 1, error := some (.exitError 1),
    children := [] }

/-- The right result the connect phase of `executePipe` rebuilds for a
succeeding right runner with empty output. -/
def c2wr : Result :=
  { type := .opSingle, exitCode := 0, error := none, children := [] }

/-- C2 witness: the amended fail-fast mirror applied to a concrete
`false | echo` pipe whose awaited left runner fails. -/
theorem c2_witness :
    executePipe 2 (failProc 1) (some (okProc 2 [])) =
      .ok (.fail (some c2wl) c2wr (.exitError 1), [1, 2]) ∧
    c2wl.error ≠ none ∧
    visitPipe 3 none (failProc 1) (some (okProc 2 [])) =
      .ok ({ type := .opPipe, children := [c2wl, c2wr],
             error := some (.exitError 1), exitCode := c2wl.exitCode,
             stderr := c2wl.stderr }, some (.exitError 1), [], [1, 2]) :=
  ⟨rfl, fun h => Option.noConfusion h,
   c2_pipe_fail_fast.1 2 (failProc 1) (some (okProc 2 [])) c2wl c2wr
     (.exitError 1) [1, 2] rfl (fun h => Option.noConfusion h)⟩

/-! ## Claim C3 -/

/-- C3: `VisitAnd` short-circuits.  If left's error is non-nil or left's
exit code is non-zero, right is never started — the output (including
the spawn trace `tr1`, which stays exactly left's) is independent of the
right operand — a synthetic skipped child (exit code 0, empty output,
nil error, `skipped` set) is appended, and the overall Result equals
left's exactly in error, exit code, and output.  Otherwise right runs
and the overall Result mirrors right, with children `[left, right]`. -/
theorem c3_and_short_circuit :
    (∀ fuel ctx l r lres lerr tr1,
       runExec fuel ctx l = .ok (lres, lerr, tr1) →
       (lres.error ≠ none ∨ lres.exitCode ≠ 0) →
       visitAnd (fuel + 1) ctx l r =
         .ok ({ type := .opAnd, children := [lres, skippedResult],
                exitCode := lres.exitCode, error := lres.error,
                stdout := lres.stdout, stderr := lres.stderr },
              lres.error, [], tr1)) ∧
    (skippedResult.exitCode = 0 ∧ skippedResult.stdout = [] ∧
     skippedResult.stderr = [] ∧ skippedResult.error = none ∧
     skippedResult.skipped = true) ∧
    (∀ fuel ctx l rr lres lerr tr1 rres rerr tr2,
       runExec fuel ctx l = .ok (lres, lerr, tr1) →
       lres.error = none → lres.exitCode = 0 →
       runExec fuel ctx rr = .ok (rres, rerr, tr2) →
       visitAnd (fuel + 1) ctx l (some rr) =
         .ok ({ type := .opAnd, children := [lres, rres],
                exitCode := rres.exitCode, error := rres.error,
                stdout := rres.stdout, stderr := rres.stderr },
              rerr, [], tr1 ++ tr2)) := by
  refine ⟨?_, ⟨rfl, rfl, rfl, rfl, rfl⟩, ?_⟩
  · intro fuel ctx l r lres lerr tr1 hl hor
    have hretinv := ((master fuel).1 ctx l lres lerr tr1 hl).1.1
    have hcond : (lerr.isSome || lres.exitCode != 0) = true := by
      rcases hor with hne | hx
      · have hln : lerr ≠ none := fun hn => hne (hretinv.mpr hn)
        simp [Option.isSome_iff_ne_none, hln]
      · simp [hx]
    simp only [visitAnd, hl]
    rw [if_pos hcond]
  · intro fuel ctx l rr lres lerr tr1 rres rerr tr2 hl hen hx hr
    have hretinv := ((master fuel).1 ctx l lres lerr tr1 hl).1.1
    have hlerr : lerr = none := hretinv.mp hen
    have hcond : ¬((lerr.isSome || lres.exitCode != 0) = true) := by
      subst hlerr
      simp [hx]
    simp only [visitAnd, hl]
    rw [if_neg hcond]
    simp only [hr]

/-- The Result of running the failing leaf alone. -/
def failRes : Result :=
  { type := .opSingle, exitCode := 1, error := some (.exitError 1),
    children := [] }

/-- C3 witness: `false && echo` at concrete inputs — right never started
(spawn trace stays `[1]`), skipped child appended, left mirrored. -/
theorem c3_witness :
    runExec 1 none (failProc 1) = .ok (failRes, some (.exitError 1), [1]) ∧
    (failRes.error ≠ none ∨ failRes.exitCode ≠ 0) ∧
    visitAnd 2 none (failProc 1) (some (okProc 2 [120])) =
      .ok ({ type := .opAnd, children := [failRes, skippedResult],
             exitCode := failRes.exitCode, error := failRes.error,
             stdout := failRes.stdout, stderr := failRes.stderr },
           failRes.error, [], [1]) :=
  ⟨rfl, Or.inl (fun h => Option.noConfusion h),
   c3_and_short_circuit.1 1 none (failProc 1) (some (okProc 2 [120]))
     failRes (some (.exitError 1)) [1] rfl
     (Or.inl (fun h => Option.noConfusion h))⟩

/-! ## Claim C4 -/

/-- C4: `VisitOr`.  If left succeeded (nil error and zero exit code),
right is skipped and the overall Result mirrors left's success with a
nil error.  Otherwise right runs unconditionally; the overall output and
exit code mirror right's; when right succeeded the overall error is nil,
and when right did not succeed the overall error is right's (non-nil)
result error — so the overall error is nil exactly when right succeeded.
Left's failure stays visible only on the first child. -/
theorem c4_or_recovery :
    (∀ fuel ctx l r lres lerr tr1,
       runExec fuel ctx l = .ok (lres, lerr, tr1) →
       lres.error = none → lres.exitCode = 0 →
       visitOr (fuel + 1) ctx l r =
         .ok ({ type := .opOr, children := [lres, skippedResult],
                exitCode := lres.exitCode, stdout := lres.stdout,
                stderr := lres.stderr }, none, [], tr1)) ∧
    (∀ fuel ctx l rr lres lerr tr1 rres rerr tr2,
       runExec fuel ctx l = .ok (lres, lerr, tr1) →
       (lres.error ≠ none ∨ lres.exitCode ≠ 0) →
       runExec fuel ctx rr = .ok (rres, rerr, tr2) →
       (rres.error = none ∧ rres.exitCode = 0 →
          visitOr (fuel + 1) ctx l (some rr) =
            .ok ({ type := .opOr, children := [lres, rres],
                   exitCode := rres.exitCode, stdout := rres.stdout,
                   stderr := rres.stderr }, none, [], tr1 ++ tr2)) ∧
       (¬(rres.error = none ∧ rres.exitCode = 0) →
          rres.error ≠ none ∧
          visitOr (fuel + 1) ctx l (some rr) =
            .ok ({ type := .opOr, children := [lres, rres],
                   exitCode := rres.exitCode, stdout := rres.stdout,
                   stderr := rres.stderr, error := rres.error },
                 rerr, [], tr1 ++ tr2))) := by
  constructor
  · intro fuel ctx l r lres lerr tr1 hl hen hx
    have hretinv := ((master fuel).1 ctx l lres lerr tr1 hl).1.1
    have hlerr : lerr = none := hretinv.mp hen
    have hcond : (lerr.isNone && lres.exitCode == 0) = true := by
      subst hlerr
      simp [hx]
    simp only [visitOr, hl]
    rw [if_pos hcond]
  · intro fuel ctx l rr lres lerr tr1 rres rerr tr2 hl hor hr
    have hretinvL := ((master fuel).1 ctx l lres lerr tr1 hl).1.1
    have hRinv := ((master fuel).1 ctx rr rres rerr tr2 hr).1
    have hcond : ¬((lerr.isNone && lres.exitCode == 0) = true) := by
      rcases hor with hne | hx
      · have hln : lerr ≠ none := fun hn => hne (hretinvL.mpr hn)
        simp [Option.isNone_iff_eq_none, hln]
      · simp [hx]
    constructor
    · intro hsucc
      have hrerr : rerr = none := hRinv.1.mp hsucc.1
      have hc2 : (rerr.isNone && rres.exitCode == 0) = true := by
        subst hrerr
        simp [hsucc.2]
      simp only [visitOr, hl]
      rw [if_neg hcond]
      simp only [hr]
      rw [if_pos hc2]
    · intro hnsucc
      have hrne : rres.error ≠ none := by
        intro hrn
        exact hnsucc ⟨hrn, hRinv.2 hrn⟩
      have hrerr : rerr ≠ none := fun hn => hrne (hRinv.1.mpr hn)
      have hc2 : ¬((rerr.isNone && rres.exitCode == 0) = true) := by
        simp [Option.isNone_iff_eq_none, hrerr]
      refine ⟨hrne, ?_⟩
      simp only [visitOr, hl]
      rw [if_neg hcond]
      simp only [hr]
      rw [if_neg hc2]

/-- The Result of running the succeeding echo("y") leaf alone. -/
def echoYRes : Result :=
  { type := .opSingle, stdout := [121], children := [] }

/-- C4 witness: `false || echo("y")` at concrete inputs — right runs and
recovers, the overall error is nil, exit code 0, output is right's, and
left's failure sits on the first child. -/
theorem c4_witness :
    runExec 1 none (failProc 1) = .ok (failRes, some (.exitError 1), [1]) ∧
    (failRes.error ≠ none ∨ failRes.exitCode ≠ 0) ∧
    runExec 1 none (okProc 2 [121]) = .ok (echoYRes, none, [2]) ∧
    (echoYRes.error = none ∧ echoYRes.exitCode = 0) ∧
    visitOr 2 none (failProc 1) (some (okProc 2 [121])) =
      .ok ({ type := .opOr, children := [failRes, echoYRes],
             exitCode := echoYRes.exitCode, stdout := echoYRes.stdout,
             stderr := echoYRes.stderr }, none, [], [1] ++ [2]) :=
  ⟨rfl, Or.inl (fun h => Option.noConfusion h), rfl, ⟨rfl, rfl⟩,
   ((c4_or_recovery.2 1 none (failProc 1) (okProc 2 [121]) failRes
       (some (.exitError 1)) [1] echoYRes none [2] rfl
       (Or.inl (fun h => Option.noConfusion h)) rfl).1 ⟨rfl, rfl⟩)⟩

/-! ## Claim C5 -/

/-- `sleep-that-fails.Background().And(echo)`: Background node on the
left of an And, with a failing detached job. -/
def c5cexTree : Executable :=
  .pipeline .opAnd (.pipeline .opBackground (failProc 1) none 5)
    (some (okProc 2 [100])) 5

/-- C5, counterexample: the claim says the And's own result resolves
without waiting the full sleep — the Background branch's Run returning
before the detached job completes.  In the code, `Pipeline.Run` of the
Background node itself drains that visitor's job list before returning,
so the And's first child already carries the detached job's final error
in its `BackgroundErrors` — information that exists only after the job
completed.  The inner Run therefore blocks until the job finishes, and
the And's result resolves only afterwards. -/
theorem c5_counterexample :
    runExec 9 none c5cexTree =
      .ok ({ type := .opAnd, stdout := [100], exitCode := 0, error := none,
             children :=
               [{ type := .opBackground, exitCode := 0, children := [],
                  backgroundErrors := [.exitError 1] },
                { type := .opSingle, stdout := [100], exitCode := 0,
                  error := none, children := [] }] },
           none, [1, 2]) :=
  rfl

/-- Helper: the mirror-right equation of `VisitAnd` when left
succeeded. -/
theorem visitAnd_mirror_right (fuel : Nat) (ctx : Option GoError)
    (l rr : Executable) (lres : Result) (lerr : Option GoError)
    (tr1 : List Nat) (rres : Result) (rerr : Option GoError)
    (tr2 : List Nat)
    (hl : runExec fuel ctx l = .ok (lres, lerr, tr1))
    (hlerr : lerr = none) (hx : lres.exitCode = 0)
    (hr : runExec fuel ctx rr = .ok (rres, rerr, tr2)) :
    visitAnd (fuel + 1) ctx l (some rr) =
      .ok ({ type := .opAnd, children := [lres, rres],
             exitCode := rres.exitCode, error := rres.error,
             stdout := rres.stdout, stderr := rres.stderr },
           rerr, [], tr1 ++ tr2) := by
  have hcond : ¬((lerr.isSome || lres.exitCode != 0) = true) := by
    subst hlerr
    simp [hx]
  simp only [visitAnd, hl]
  rw [if_neg hcond]
  simp only [hr]

/-- Helper: a Background node's own Run immediately registers the
detached job and then drains it, so the node's Run returns the
placeholder with the completed job's error appended to its
`BackgroundErrors`. -/
theorem run_background_node (fuel : Nat) (s : Executable) (t1 : Nat)
    (sres : Result) (serr : Option GoError) (str : List Nat)
    (hs : runExec fuel none s = .ok (sres, serr, str)) :
    runExec (fuel + 2) none (.pipeline .opBackground s none t1) =
      .ok ({ type := .opBackground, exitCode := 0, children := [],
             backgroundErrors := sres.error.toList }, none, str) := by
  simp only [runExec, visitBackground, hs, finishRun]
  cases hse : sres.error with
  | none => simp [waitForBackground, hse, bgPlaceholder, Option.toList]
  | some e0 => simp [waitForBackground, hse, bgPlaceholder, Option.toList]

/-- C5 (amended): for `s.Background().And(e)`, the Background branch's
own Run first registers the detached job and then drains it before
returning — so the And's first child already holds the completed job's
error (if any) in `BackgroundErrors`, the right branch starts only after
the detached job finished (its spawns `etr` follow the job's spawns
`str` in the trace), the overall And result mirrors the right branch,
and the top-level result's own `BackgroundErrors` stays empty (the job
is owned and drained by the inner Run, never the outer one). -/
theorem c5_background_and (fuel : Nat) (s e : Executable) (t1 t2 : Nat)
    (sres : Result) (serr : Option GoError) (str : List Nat)
    (eres : Result) (eerr : Option GoError) (etr : List Nat)
    (hs : runExec fuel none s = .ok (sres, serr, str))
    (he : runExec (fuel + 2) none e = .ok (eres, eerr, etr)) :
    runExec (fuel + 4) none
        (.pipeline .opAnd (.pipeline .opBackground s none t1) (some e) t2) =
      .ok ({ type := .opAnd,
             children :=
               [{ type := .opBackground, exitCode := 0, children := [],
                  backgroundErrors := sres.error.toList }, eres],
             exitCode := eres.exitCode, error := eres.error,
             stdout := eres.stdout, stderr := eres.stderr },
           eerr, str ++ etr) := by
  have hbg := run_background_node fuel s t1 sres serr str hs
  have hva := visitAnd_mirror_right (fuel + 2) none
    (.pipeline .opBackground s none t1) e
    { type := .opBackground, exitCode := 0, children := [],
      backgroundErrors := sres.error.toList } none str eres eerr etr
    hbg rfl rfl he
  show finishRun none (visitAnd (fuel + 3) none
      (.pipeline .opBackground s none t1) (some e)) = _
  rw [hva]
  cases eerr with
  | none => rw [finishRun_ok_none]; rfl
  | some e0 => rw [finishRun_ok_some]

/-- The Result of running the succeeding echo("done") leaf alone. -/
def echoDoneRes : Result :=
  { type := .opSingle, stdout := [100], children := [] }

/-- C5 witness: the amended theorem at a concrete failing background job
and succeeding right branch. -/
theorem c5_witness :
    runExec 1 none (failProc 1) = .ok (failRes, some (.exitError 1), [1]) ∧
    runExec 3 none (okProc 2 [100]) = .ok (echoDoneRes, none, [2]) ∧
    runExec 5 none
        (.pipeline .opAnd (.pipeline .opBackground (failProc 1) none 5)
          (some (okProc 2 [100])) 5) =
      .ok ({ type := .opAnd,
             children :=
               [{ type := .opBackground, exitCode := 0, children := [],
                  backgroundErrors := failRes.error.toList }, echoDoneRes],
             exitCode := echoDoneRes.exitCode, error := echoDoneRes.error,
             stdout := echoDoneRes.stdout, stderr := echoDoneRes.stderr },
           none, [1] ++ [2]) :=
  ⟨rfl, rfl,
   c5_background_and 1 (failProc 1) (okProc 2 [100]) 5 5 failRes
     (some (.exitError 1)) [1] echoDoneRes none [2] rfl rfl⟩

/-! ## Claim C6 -/

/-- C6: `VisitBackground` computes the detached job's outcome under the
independent live context (`none` — not the run context), registers a
`BackgroundJob` holding that eventual result on this visitor's own job
list, and returns immediately with the placeholder success Result (exit
code 0, nil error) — the job's outcome is never consulted for the
returned pair.  The last conjunct shows the Background dispatch for an
arbitrary run context `ctx` still uses the job computed under the live
context. -/
theorem c6_visit_background (fuel : Nat) (e : Executable) (res : Result)
    (err : Option GoError) (tr : List Nat)
    (h : runExec fuel none e = .ok (res, err, tr)) :
    visitBackground (fuel + 1) e = .ok (bgPlaceholder, none, [⟨res⟩], tr) ∧
    bgPlaceholder.exitCode = 0 ∧ bgPlaceholder.error = none ∧
    (∀ ctx r t, runExec (fuel + 2) ctx (.pipeline .opBackground e r t) =
       finishRun ctx (.ok (bgPlaceholder, none, [⟨res⟩], tr))) := by
  have h1 : visitBackground (fuel + 1) e =
      .ok (bgPlaceholder, none, [⟨res⟩], tr) := by
    simp only [visitBackground, h]
  refine ⟨h1, rfl, rfl, ?_⟩
  intro ctx r t
  show finishRun ctx (visitBackground (fuel + 1) e) = _
  rw [h1]

/-- C6 witness: `VisitBackground` on the failing leaf — placeholder
success returned, the failing job (with its completed result) registered
on the job list. -/
theorem c6_witness :
    runExec 1 none (failProc 1) = .ok (failRes, some (.exitError 1), [1]) ∧
    (visitBackground 2 (failProc 1) =
       .ok (bgPlaceholder, none, [⟨failRes⟩], [1]) ∧
     bgPlaceholder.exitCode = 0 ∧ bgPlaceholder.error = none ∧
     (∀ ctx r t, runExec 3 ctx (.pipeline .opBackground (failProc 1) r t) =
        finishRun ctx (.ok (bgPlaceholder, none, [⟨failRes⟩], [1])))) :=
  ⟨rfl, c6_visit_background 1 (failProc 1) failRes (some (.exitError 1)) [1] rfl⟩

/-! ## Claim C7 -/

/-- C7: drain (`WaitForBackground`) never alters the Result's type,
stdout, stderr, exit code, error, skipped flag, or children — only
`BackgroundErrors` may change; for each tracked job that completes
normally (live run context) any job error is appended, in order, to the
top Result's background-errors list; and the tail of `Pipeline.Run`
(`finishRun`) invokes the drain exactly once, only when the dispatch
returned a nil error — with a non-nil error the result is returned
untouched. -/
theorem c7_drain :
    (∀ ctx jobs r,
       (waitForBackground ctx jobs r).type = r.type ∧
       (waitForBackground ctx jobs r).stdout = r.stdout ∧
       (waitForBackground ctx jobs r).stderr = r.stderr ∧
       (waitForBackground ctx jobs r).exitCode = r.exitCode ∧
       (waitForBackground ctx jobs r).error = r.error ∧
       (waitForBackground ctx jobs r).skipped = r.skipped ∧
       (waitForBackground ctx jobs r).children = r.children) ∧
    (∀ jobs r, (waitForBackground none jobs r).backgroundErrors =
        r.backgroundErrors ++ jobs.filterMap (fun j => j.result.error)) ∧
    (∀ ctx res jobs tr,
       finishRun ctx (.ok (res, none, jobs, tr)) =
         .ok (waitForBackground ctx jobs res, none, tr)) ∧
    (∀ ctx res e2 jobs tr,
       finishRun ctx (.ok (res, some e2, jobs, tr)) = .ok (res, some e2, tr)) :=
  ⟨wfb_frame, wfb_append, finishRun_ok_none, finishRun_ok_some⟩

/-! ## Claim C8 -/

/-- Helper: on a Background-free tree, a Run whose context is already
done fails (non-nil returned error and result error) and spawns no
process. -/
theorem noBg_ctxDone (fuel : Nat) :
    ∀ ce e res err tr, noBgB e = true →
      runExec fuel (some ce) e = .ok (res, err, tr) →
      err ≠ none ∧ res.error ≠ none ∧ tr = [] := by
  induction fuel using Nat.strong_induction_on with
  | _ fuel IH =>
    intro ce e res err tr hnb h
    cases fuel with
    | zero => exact Except.noConfusion h
    | succ g =>
      cases e with
      | process b t =>
        cases hse : b.startErr with
        | some e0 =>
          simp only [runExec, visitProcess, procExec, hse] at h
          simp only [Except.ok.injEq, Prod.mk.injEq] at h
          obtain ⟨hres, herr, htr⟩ := h
          subst hres herr htr
          exact ⟨by simp, by simp, rfl⟩
        | none =>
          simp only [runExec, visitProcess, procExec, hse] at h
          simp only [Except.ok.injEq, Prod.mk.injEq] at h
          obtain ⟨hres, herr, htr⟩ := h
          subst hres herr htr
          exact ⟨by simp, by simp, rfl⟩
      | pipeline op l r t =>
        cases op with
        | opSingle => exact Except.noConfusion h
        | opBackground => simp [noBgB] at hnb
        | opPipe =>
          simp only [runExec] at h
          cases hv : visitPipe g (some ce) l r with
          | error p =>
            simp only [hv, finishRun] at h <;> exact Except.noConfusion h
          | ok quad =>
            obtain ⟨res0, err0, jobs0, tr0⟩ := quad
            rw [hv] at h
            cases g with
            | zero => exact Except.noConfusion hv
            | succ g2 =>
              simp only [visitPipe] at hv
              simp only [Except.ok.injEq, Prod.mk.injEq] at hv
              obtain ⟨h1, h2, h3, h4⟩ := hv
              subst h1 h2 h3 h4
              rw [finishRun_ok_some] at h
              simp only [Except.ok.injEq, Prod.mk.injEq] at h
              obtain ⟨hres, herr, htr⟩ := h
              subst hres herr htr
              exact ⟨by simp, by simp, rfl⟩
        | opAnd =>
          have hnb2 : noBgB l = true ∧ noBgO r = true := by
            have := hnb
            simp only [noBgB, Bool.and_eq_true] at this
            exact ⟨this.1.2, this.2⟩
          simp only [runExec] at h
          cases hv : visitAnd g (some ce) l r with
          | error p =>
            simp only [hv, finishRun] at h <;> exact Except.noConfusion h
          | ok quad =>
            obtain ⟨res0, err0, jobs0, tr0⟩ := quad
            rw [hv] at h
            cases g with
            | zero => exact Except.noConfusion hv
            | succ g2 =>
              simp only [visitAnd] at hv
              cases hl : runExec g2 (some ce) l with
              | error p =>
                simp only [hl] at hv <;> exact Except.noConfusion hv
              | ok trip =>
                obtain ⟨lres, lerr, tr1⟩ := trip
                simp only [hl] at hv
                obtain ⟨hlerr, hlres, htr1⟩ :=
                  IH g2 (by omega) ce l lres lerr tr1 hnb2.1 hl
                have hcond : (lerr.isSome || lres.exitCode != 0) = true := by
                  simp [Option.isSome_iff_ne_none, hlerr]
                rw [if_pos hcond] at hv
                simp only [Except.ok.injEq, Prod.mk.injEq] at hv
                obtain ⟨h1, h2, h3, h4⟩ := hv
                subst h1 h2 h3 h4
                cases hle : lres.error with
                | none => exact absurd hle hlres
                | some e1 =>
                  rw [hle] at h
                  rw [finishRun_ok_some] at h
                  simp only [Except.ok.injEq, Prod.mk.injEq] at h
                  obtain ⟨hres, herr, htr⟩ := h
                  subst hres herr htr
                  exact ⟨by simp, by simp [hle], htr1⟩
        | opOr =>
          have hnb2 : noBgB l = true ∧ noBgO r = true := by
            have := hnb
            simp only [noBgB, Bool.and_eq_true] at this
            exact ⟨this.1.2, this.2⟩
          simp only [runExec] at h
          cases hv : visitOr g (some ce) l r with
          | error p =>
            simp only [hv, finishRun] at h <;> exact Except.noConfusion h
          | ok quad =>
            obtain ⟨res0, err0, jobs0, tr0⟩ := quad
            rw [hv] at h
            cases g with
            | zero => exact Except.noConfusion hv
            | succ g2 =>
              simp only [visitOr] at hv
              cases hl : runExec g2 (some ce) l with
              | error p =>
                simp only [hl] at hv <;> exact Except.noConfusion hv
              | ok trip =>
                obtain ⟨lres, lerr, tr1⟩ := trip
                simp only [hl] at hv
                obtain ⟨hlerr, hlres, htr1⟩ :=
                  IH g2 (by omega) ce l lres lerr tr1 hnb2.1 hl
                have hcond : ¬((lerr.isNone && lres.exitCode == 0) = true) := by
                  simp [Option.isNone_iff_eq_none, hlerr]
                rw [if_neg hcond] at hv
                cases r with
                | none => exact Except.noConfusion hv
                | some rr =>
                  cases hr : runExec g2 (some ce) rr with
                  | error p =>
                    simp only [hr] at hv <;> exact Except.noConfusion hv
                  | ok trip2 =>
                    obtain ⟨rres, rerr, tr2⟩ := trip2
                    simp only [hr] at hv
                    obtain ⟨hrerr, hrres, htr2⟩ :=
                      IH g2 (by omega) ce rr rres rerr tr2 hnb2.2 hr
                    have hc2 : ¬((rerr.isNone && rres.exitCode == 0) = true) := by
                      simp [Option.isNone_iff_eq_none, hrerr]
                    rw [if_neg hc2] at hv
                    simp only [Except.ok.injEq, Prod.mk.injEq] at hv
                    obtain ⟨h1, h2, h3, h4⟩ := hv
                    subst h1 h2 h3 h4
                    cases hre : rerr with
                    | none => exact absurd hre hrerr
                    | some e1 =>
                      rw [hre] at h
                      rw [finishRun_ok_some] at h
                      simp only [Except.ok.injEq, Prod.mk.injEq] at h
                      obtain ⟨hres, herr, htr⟩ := h
                      subst hres herr htr
                      refine ⟨by simp, by simp [hrres], ?_⟩
                      rw [htr1, htr2]
                      rfl

/-- Background node over a succeeding sleep, to be run under an
already-cancelled context. -/
def c8cexTree : Executable := .pipeline .opBackground (okProc 9 []) none 5

/-- C8, counterexample: the claim says a Run whose context is already
cancelled before any process starts fails immediately with zero
processes spawned.  A Background root launches its detached job under a
fresh independent context, so the job's process spawns (pid 9 in the
trace) and the Run returns the placeholder success result with a nil
error — it does not fail at all. -/
theorem c8_counterexample :
    runExec 3 (some .ctxCanceled) c8cexTree = .ok (bgPlaceholder, none, [9]) ∧
    bgPlaceholder.error = none ∧ bgPlaceholder.exitCode = 0 :=
  ⟨rfl, rfl, rfl⟩

/-- C8 (amended): a `VisitPipe` under an already-done context fails
immediately with the context's error and an unresolved Result (exit code
still 0), spawning nothing; and more generally any Run of a
Background-free tree under an already-done context returns a non-nil
error (also on the Result) with zero processes spawned.  A Background
node is the exception: its detached job still launches under its own
fresh context and the Run reports success (see the counterexample). -/
theorem c8_cancelled_context :
    (∀ fuel ce l r, visitPipe (fuel + 1) (some ce) l r =
       .ok ({ type := .opPipe, error := some ce, children := [] },
            some ce, [], [])) ∧
    (∀ fuel ce e res err tr, noBgB e = true →
       runExec fuel (some ce) e = .ok (res, err, tr) →
       err ≠ none ∧ res.error ≠ none ∧ tr = []) :=
  ⟨fun _ _ _ _ => rfl, fun fuel => noBg_ctxDone fuel⟩

/-- C8 witness: the amended theorem at a concrete cancelled-context run
of a Background-free pipe `echo | echo`: it fails with the context error
and spawns nothing. -/
theorem c8_witness :
    noBgB c1cexTree = true ∧
    runExec 3 (some .ctxCanceled) c1cexTree =
      .ok (c1cexRes, some .ctxCanceled, []) ∧
    ((some GoError.ctxCanceled : Option GoError) ≠ none ∧
     c1cexRes.error ≠ none ∧ ([] : List Nat) = []) :=
  ⟨rfl, rfl,
   c8_cancelled_context.2 3 .ctxCanceled c1cexTree c1cexRes
     (some .ctxCanceled) [] rfl rfl⟩

/-! ## Claim C9 -/

/-- C9: a composite non-Pipe operand (And/Or/Background) of a Pipe whose
own Run succeeds makes `startProcess` return no runner together with a
nil error (`.ran res none`, Go's `(nil, result, nil)`); `executePipe`
then dereferences the nil runner when connecting the byte streams, so
the whole Run panics (`nilDeref`) instead of producing a Result — on
either side of the Pipe. -/
theorem c9_composite_pipe_operand :
    (∀ fuel op l r t res tr, op ≠ .opPipe →
       runExec fuel none (.pipeline op l r t) = .ok (res, none, tr) →
       startProcess (fuel + 1) (some (.pipeline op l r t)) =
         .ok (.ran res none, tr)) ∧
    (∀ fuel op l r t res tr b tb, op ≠ .opPipe →
       runExec fuel none (.pipeline op l r t) = .ok (res, none, tr) →
       b.startErr = none →
       executePipe (fuel + 2) (.pipeline op l r t) (some (.process b tb)) =
         .error .nilDeref) ∧
    (∀ fuel op l r t res tr b tb tp, op ≠ .opPipe →
       runExec fuel none (.pipeline op l r t) = .ok (res, none, tr) →
       b.startErr = none →
       runExec (fuel + 4) none
           (.pipeline .opPipe (.pipeline op l r t)
             (some (.process b tb)) tp) =
         .error .nilDeref) ∧
    (∀ fuel op l r t res tr b tb, op ≠ .opPipe →
       runExec fuel none (.pipeline op l r t) = .ok (res, none, tr) →
       b.startErr = none →
       executePipe (fuel + 2) (.process b tb) (some (.pipeline op l r t)) =
         .error .nilDeref) := by
  have hstart : ∀ fuel op l r t res tr, op ≠ .opPipe →
      runExec fuel none (.pipeline op l r t) = .ok (res, none, tr) →
      startProcess (fuel + 1) (some (.pipeline op l r t)) =
        .ok (.ran res none, tr) := by
    intro fuel op l r t res tr hne h
    cases op with
    | opPipe => exact absurd rfl hne
    | opSingle =>
      cases fuel with
      | zero => exact Except.noConfusion h
      | succ g =>
        simp only [runExec] at h
        exact Except.noConfusion h
    | opAnd => simp only [startProcess, h]
    | opOr => simp only [startProcess, h]
    | opBackground => simp only [startProcess, h]
  have hexec : ∀ fuel op l r t res tr b tb, op ≠ .opPipe →
      runExec fuel none (.pipeline op l r t) = .ok (res, none, tr) →
      b.startErr = none →
      executePipe (fuel + 2) (.pipeline op l r t) (some (.process b tb)) =
        .error .nilDeref := by
    intro fuel op l r t res tr b tb hne h hb
    have hsp := hstart fuel op l r t res tr hne h
    have hleaf : startProcess (fuel + 1) (some (.process b tb)) =
        .ok (.runner ⟨b.output, b.waitErr⟩, [b.pid]) := by
      simp only [startProcess, procExec, hb]
    simp only [executePipe, hsp, hleaf, StartOut.runnerOf]
  have hrun : ∀ fuel op l r t res tr b tb tp, op ≠ .opPipe →
      runExec fuel none (.pipeline op l r t) = .ok (res, none, tr) →
      b.startErr = none →
      runExec (fuel + 4) none
          (.pipeline .opPipe (.pipeline op l r t)
            (some (.process b tb)) tp) =
        .error .nilDeref := by
    intro fuel op l r t res tr b tb tp hne h hb
    have hep := hexec fuel op l r t res tr b tb hne h hb
    show finishRun none (visitPipe (fuel + 3) none (.pipeline op l r t)
        (some (.process b tb))) = _
    simp only [visitPipe, hep, finishRun]
  have hexecR : ∀ fuel op l r t res tr b tb, op ≠ .opPipe →
      runExec fuel none (.pipeline op l r t) = .ok (res, none, tr) →
      b.startErr = none →
      executePipe (fuel + 2) (.process b tb) (some (.pipeline op l r t)) =
        .error .nilDeref := by
    intro fuel op l r t res tr b tb hne h hb
    have hsp := hstart fuel op l r t res tr hne h
    have hleaf : startProcess (fuel + 1) (some (.process b tb)) =
        .ok (.runner ⟨b.output, b.waitErr⟩, [b.pid]) := by
      simp only [startProcess, procExec, hb]
    simp only [executePipe, hleaf, hsp, StartOut.runnerOf]
  exact ⟨hstart, hexec, hrun, hexecR⟩

/-- The Result of running `true && true` (two succeeding leaves). -/
def c9wRes : Result :=
  { type := .opAnd,
    children := [{ type := .opSingle, children := [] },
                 { type := .opSingle, children := [] }],
    exitCode := 0, error := none }

/-- C9 witness: a Pipe whose left operand is a successful And composite
panics with a nil dereference at concrete inputs. -/
theorem c9_witness :
    (OperationType.opAnd ≠ .opPipe) ∧
    runExec 3 none
        (.pipeline .opAnd (okProc 1 []) (some (okProc 2 [])) 5) =
      .ok (c9wRes, none, [1, 2]) ∧
    (ProcBehavior.mk 3 none [] none).startErr = none ∧
    runExec 7 none
        (.pipeline .opPipe
          (.pipeline .opAnd (okProc 1 []) (some (okProc 2 [])) 5)
          (some (.process (ProcBehavior.mk 3 none [] none) 5)) 5) =
      .error .nilDeref :=
  ⟨fun h => OperationType.noConfusion h, rfl, rfl,
   c9_composite_pipe_operand.2.2.1 3 .opAnd (okProc 1 []) (some (okProc 2 []))
     5 c9wRes [1, 2] (ProcBehavior.mk 3 none [] none) 5 5
     (fun h => OperationType.noConfusion h) rfl rfl⟩

/-! ## Claim C10 -/

/-- The timeout written by `setTimeout` is the one read back. -/
theorem hnode_setTimeout_timeoutOf (n : HNode) (d : Nat) :
    (n.setTimeout d).timeoutOf = d := by
  cases n <;> rfl

/-- C10: `WithShutdownTimeout` mutates the receiver's shutdown-timeout
field in place and returns the receiver itself (the same address, not a
fresh node); every other field (process reference for a leaf; operation
tag, left operand, right operand for a pipeline) is unchanged; every
other heap cell is untouched; and a pipeline node that shares the
receiver as its left operand observes the new timeout through the shared
address. -/
theorem c10_withShutdownTimeout :
    (∀ s p d, (withShutdownTimeout s p d).2 = p) ∧
    (∀ s p d, (withShutdownTimeout s p d).1 p = (s p).setTimeout d) ∧
    (∀ s p d op l r t, s p = .pipeN op l r t →
       (withShutdownTimeout s p d).1 p = .pipeN op l r d) ∧
    (∀ s p d pr t, s p = .procN pr t →
       (withShutdownTimeout s p d).1 p = .procN pr d) ∧
    (∀ s p d q, q ≠ p → (withShutdownTimeout s p d).1 q = s q) ∧
    (∀ s p d q op r t, q ≠ p → s q = .pipeN op p r t →
       ((withShutdownTimeout s p d).1 q).leftOf = some p ∧
       ((withShutdownTimeout s p d).1 p).timeoutOf = d) := by
  refine ⟨fun s p d => rfl, fun s p d => ?_, ?_, ?_, ?_, ?_⟩
  · show (if p = p then (s p).setTimeout d else s p) = (s p).setTimeout d
    rw [if_pos rfl]
  · intro s p d op l r t hsp
    show (if p = p then (s p).setTimeout d else s p) = _
    rw [if_pos rfl, hsp]
    rfl
  · intro s p d pr t hsp
    show (if p = p then (s p).setTimeout d else s p) = _
    rw [if_pos rfl, hsp]
    rfl
  · intro s p d q hq
    show (if q = p then (s q).setTimeout d else s q) = s q
    rw [if_neg hq]
  · intro s p d q op r t hq hsq
    constructor
    · show (if q = p then (s q).setTimeout d else s q).leftOf = some p
      rw [if_neg hq, hsq]
      rfl
    · show (if p = p then (s p).setTimeout d else s p).timeoutOf = d
      rw [if_pos rfl]
      exact hnode_setTimeout_timeoutOf (s p) d

/-- A two-cell heap: address 0 is a pipeline whose left operand is the
leaf at address 1. -/
def c10store : Store :=
  fun q => if q = 0 then .pipeN .opAnd 1 none 5 else .procN 7 5

/-- C10 witness: updating the shared leaf at address 1 is observed
through the pipeline at address 0. -/
theorem c10_witness :
    ((0 : Nat) ≠ 1) ∧ c10store 0 = .pipeN .opAnd 1 none 5 ∧
    (((withShutdownTimeout c10store 1 9).1 0).leftOf = some 1 ∧
     ((withShutdownTimeout c10store 1 9).1 1).timeoutOf = 9) :=
  ⟨by decide, rfl,
   c10_withShutdownTimeout.2.2.2.2.2 c10store 1 9 0 .opAnd none 5
     (by decide) rfl⟩

end Subprocess
